import Mathlib

/-!
# encrypter: a verification development of `main.go`

The program is one Go file.  It serves `POST /encrypt`: the handler
`OpenAPIHandler` looks the requested environment up in the configuration,
and `EncryptAPIKey` encrypts the request's API key under that environment's
RSA public key (PKCS#1 v1.5) and returns the ciphertext in base64.

Layout of this file:

* byte strings and big-endian integers;
* the Go standard-library routines `main.go` calls, each as a pure function:
  `encoding/base64` (`StdEncoding`), `encoding/asn1` and
  `golang.org/x/crypto/cryptobyte` as far as `crypto/x509.ParsePKIXPublicKey`
  uses them, `crypto/rsa.EncryptPKCS1v15`, the `net/http` response writer;
* the two functions of `main.go`, `EncryptAPIKey` and `OpenAPIHandler`;
* the notions the specification speaks of and the program does not contain:
  the DER encoding of an RSA public key, PKCS#1 v1.5 decryption, a valid RSA
  key pair;
* lemmas and the theorems on the program.

Conventions.  A Go `string` that reaches the program comes out of
`encoding/json`, which replaces invalid UTF-8, so it is a Lean `String`; a
`[]byte` is a `List Nat` whose elements are below 256.  `crypto/rand.Reader`
is a finite supply of bytes (`RandReader`); reading past its end is the read
error of the Go reader.  Lines written with `fmt.Println` are not modelled.
The library routines follow the sources of Go 1.21 to 1.23: the key of an RSA
SubjectPublicKeyInfo is read with `cryptobyte`, `rsa.encrypt` works in
`bigmod` and wants an odd modulus, and no least key size is imposed.  A
numeric argument called `fuel` bounds a recursion that Go writes as a loop; it
is always started high enough for the loop to end by itself.
-/

namespace Encrypter

/-! ## Byte strings -/

/-- Big-endian value of a byte string (`big.Int.SetBytes`). -/
def bytesToNat : List Nat → Nat
  | [] => 0
  | b :: rest => b * 256 ^ rest.length + bytesToNat rest

/-- The `k` low-order base-256 digits of `n`, most significant first
(`big.Int.FillBytes` on a `k`-byte buffer). -/
def natToBytes : Nat → Nat → List Nat
  | 0, _ => []
  | k + 1, n => natToBytes k (n / 256) ++ [n % 256]

/-- Number of binary digits, with `fuel` bounding the recursion. -/
def bitLenAux : Nat → Nat → Nat
  | 0, _ => 0
  | fuel + 1, n => if n = 0 then 0 else bitLenAux fuel (n / 2) + 1

/-- Length in bits of `n` (`big.Int.BitLen`): 0 for 0. -/
def bitLen (n : Nat) : Nat := bitLenAux n n

/-- Modular power by repeated squaring, with `fuel` bounding the number of
binary digits of the exponent. -/
def modExpAux : Nat → Nat → Nat → Nat → Nat
  | 0, _, _, m => 1 % m
  | fuel + 1, base, exp, m =>
    if exp = 0 then 1 % m
    else if exp % 2 = 1 then
      modExpAux fuel base (exp / 2) m * modExpAux fuel base (exp / 2) m % m * base % m
    else modExpAux fuel base (exp / 2) m * modExpAux fuel base (exp / 2) m % m

/-- The power `base ^ exp` modulo `m` (`big.Int.Exp`, `bigmod.Nat.Exp`). -/
def modExp (base exp m : Nat) : Nat := modExpAux exp base exp m

/-- UTF-8 encoding of one character. -/
def utf8EncodeChar (c : Char) : List Nat :=
  let v := c.toNat
  if v < 128 then [v]
  else if v < 2048 then [192 + v / 64, 128 + v % 64]
  else if v < 65536 then [224 + v / 4096, 128 + v / 64 % 64, 128 + v % 64]
  else [240 + v / 262144, 128 + v / 4096 % 64, 128 + v / 64 % 64, 128 + v % 64]

/-- The conversion `[]byte(s)` of a Go string: its UTF-8 bytes. -/
def stringBytes (s : String) : List Nat := s.data.flatMap utf8EncodeChar

/-! ## `encoding/base64`, `StdEncoding` -/

namespace base64

/-- The standard alphabet of RFC 4648 (`encodeStd`). -/
def encodeStd : List Char :=
  "ABCDEFGHIJKLMNOPQRSTUVWXYZabcdefghijklmnopqrstuvwxyz0123456789+/".toList

/-- Padding character of `StdEncoding` (`StdPadding`). -/
def padChar : Char := '='

/-- Character of a 6-bit value (`enc.encode[v]`). -/
def encodeChar (v : Nat) : Char := encodeStd.getD v 'A'

/-- Position of `c` in the alphabet `l`, counted from `i`. -/
def decodeMapAux (c : Char) : List Char → Nat → Option Nat
  | [], _ => none
  | a :: rest, i => if a = c then some i else decodeMapAux c rest (i + 1)

/-- The 6-bit value of a character (`enc.decodeMap[c]`, `none` for 0xff). -/
def decodeMap (c : Char) : Option Nat := decodeMapAux c encodeStd 0

/-- Body of `Encoding.Encode`: three bytes give four characters, a last group
of one or two bytes is padded with `=`. -/
def encodeBytes : List Nat → List Char
  | [] => []
  | [a] => [encodeChar (a / 4), encodeChar (a % 4 * 16), padChar, padChar]
  | [a, b] =>
    [encodeChar (a / 4), encodeChar (a % 4 * 16 + b / 16), encodeChar (b % 16 * 4), padChar]
  | a :: b :: c :: rest =>
    encodeChar (a / 4) :: encodeChar (a % 4 * 16 + b / 16) ::
      encodeChar (b % 16 * 4 + c / 64) :: encodeChar (c % 64) :: encodeBytes rest

/-- Go `base64.StdEncoding.EncodeToString`. -/
def StdEncoding.EncodeToString (src : List Nat) : String := String.mk (encodeBytes src)

/-- Line feed and carriage return, which the decoder skips. -/
def isNewline (c : Char) : Bool := c = Char.ofNat 10 || c = Char.ofNat 13

/-- Drops leading newline characters (the loops "skip over newlines"). -/
def skipNewlines : List Char → List Char
  | [] => []
  | c :: rest => if isNewline c then skipNewlines rest else c :: rest

/-- The bytes of one quantum of 2, 3 or 4 six-bit values (the end of
`decodeQuantum`; not strict, so left-over bits are dropped). -/
def quantumBytes : List Nat → List Nat
  | [a, b] => [(a * 4 + b / 16) % 256]
  | [a, b, c] => [(a * 4 + b / 16) % 256, (b * 16 + c / 4) % 256]
  | [a, b, c, d] => [(a * 4 + b / 16) % 256, (b * 16 + c / 4) % 256, (c * 64 + d) % 256]
  | _ => []

/-- Go `Encoding.Decode` with `decodeQuantum`, one character at a time: `dbuf`
holds the values of the current quantum.  `none` is a `CorruptInputError`. -/
def decodeLoop : List Char → List Nat → Option (List Nat)
  | [], dbuf => if dbuf.length = 0 then some [] else none
  | c :: rest, dbuf =>
    match decodeMap c with
    | some v =>
      if dbuf.length = 3 then
        (decodeLoop rest []).map (fun out => quantumBytes (dbuf ++ [v]) ++ out)
      else decodeLoop rest (dbuf ++ [v])
    | none =>
      if isNewline c then decodeLoop rest dbuf
      else if c ≠ padChar then none
      else if dbuf.length < 2 then none
      else if dbuf.length = 2 then
        match skipNewlines rest with
        | [] => none
        | c2 :: rest2 =>
          if c2 ≠ padChar then none
          else if skipNewlines rest2 = [] then some (quantumBytes dbuf) else none
      else if skipNewlines rest = [] then some (quantumBytes dbuf) else none

/-- Go `base64.StdEncoding.DecodeString`; `none` when it returns an error. -/
def StdEncoding.DecodeString (s : String) : Option (List Nat) := decodeLoop s.data []

end base64

/-! ## `encoding/asn1`, as far as `x509.ParsePKIXPublicKey` uses it -/

namespace asn1

/-- Go `asn1.tagAndLength`: class, tag number, constructed bit and content
length of an ASN.1 element. -/
structure tagAndLength where
  cls : Nat
  tag : Nat
  isCompound : Bool
  length : Nat
deriving DecidableEq, Repr

/-- Go `parseBase128Int`: `shifted` counts the bytes read, `ret` is the value
so far.  Fails on more than five bytes, on a leading 0x80, on a value above
`math.MaxInt32` and at the end of the input. -/
def parseBase128Int : List Nat → Nat → Nat → Option (Nat × List Nat)
  | [], _, _ => none
  | b :: rest, shifted, ret =>
    if shifted = 5 then none
    else if shifted = 0 ∧ b = 128 then none
    else
      let ret1 := ret * 128 + b % 128
      if b < 128 then (if ret1 > 2147483647 then none else some (ret1, rest))
      else parseBase128Int rest (shifted + 1) ret1

/-- The loop of `parseTagAndLength` over the `numBytes` bytes of a long-form
length: fails at the end of the input, when the length reaches `1 << 23`
before a shift, and on a leading zero byte. -/
def parseLongLength : Nat → List Nat → Nat → Option (Nat × List Nat)
  | 0, bytes, length => some (length, bytes)
  | _ + 1, [], _ => none
  | numBytes + 1, b :: rest, length =>
    if length ≥ 8388608 then none
    else if length * 256 + b = 0 then none
    else parseLongLength numBytes rest (length * 256 + b)

/-- Go `parseTagAndLength` on the bytes from the current offset on; returns
the header and the bytes after it. -/
def parseTagAndLength : List Nat → Option (tagAndLength × List Nat)
  | [] => none
  | b :: rest =>
    let tagged : Option (Nat × List Nat) :=
      if b % 32 = 31 then
        match parseBase128Int rest 0 0 with
        | none => none
        | some (t, rest1) => if t < 31 then none else some (t, rest1)
      else some (b % 32, rest)
    match tagged with
    | none => none
    | some (_, []) => none
    | some (t, l :: rest1) =>
      if l < 128 then some (⟨b / 64, t, b / 32 % 2 = 1, l⟩, rest1)
      else if l % 128 = 0 then none
      else
        match parseLongLength (l % 128) rest1 0 with
        | none => none
        | some (len, rest2) =>
          if len < 128 then none else some (⟨b / 64, t, b / 32 % 2 = 1, len⟩, rest2)

/-- The common part of Go `parseField` for a field of a universal type with
tag `expectedTag`: the header must be there, be universal with that tag and
that constructed bit, and its content must fit.  Returns the content and the
bytes after the element. -/
def parseUniversal (expectedTag : Nat) (compoundType : Bool) (bytes : List Nat) :
    Option (List Nat × List Nat) :=
  match parseTagAndLength bytes with
  | none => none
  | some (t, rest) =>
    if t.cls ≠ 0 ∨ t.tag ≠ expectedTag ∨ t.isCompound ≠ compoundType then none
    else if rest.length < t.length then none
    else some (rest.take t.length, rest.drop t.length)

/-- The sub-identifiers after the first one, in `parseObjectIdentifier`;
`fuel` bounds the number of them by the number of bytes. -/
def parseObjectIdentifierRest : Nat → List Nat → Option (List Nat)
  | _, [] => some []
  | 0, _ :: _ => none
  | fuel + 1, b :: rest =>
    match parseBase128Int (b :: rest) 0 0 with
    | none => none
    | some (v, rest1) => (parseObjectIdentifierRest fuel rest1).map (fun s => v :: s)

/-- Go `parseObjectIdentifier` on the content of an OBJECT IDENTIFIER. -/
def parseObjectIdentifier (bytes : List Nat) : Option (List Nat) :=
  match bytes with
  | [] => none
  | _ :: _ =>
    match parseBase128Int bytes 0 0 with
    | none => none
    | some (v, rest) =>
      (parseObjectIdentifierRest rest.length rest).map (fun s =>
        if v < 80 then v / 40 :: v % 40 :: s else 2 :: (v - 80) :: s)

/-- Go `asn1.BitString`. -/
structure BitString where
  Bytes : List Nat
  BitLength : Nat
deriving DecidableEq, Repr

/-- Go `parseBitString` on the content of a BIT STRING: the first byte is
the number of padding bits, at most 7, zero for an empty string, and the
padding bits of the last byte are zero. -/
def parseBitString (bytes : List Nat) : Option BitString :=
  match bytes with
  | [] => none
  | paddingBits :: data =>
    if paddingBits > 7 ∨ (data = [] ∧ paddingBits > 0) ∨
        (paddingBits :: data).getLastD 0 % 2 ^ paddingBits ≠ 0 then none
    else some ⟨data, data.length * 8 - paddingBits⟩

/-- The loop of `BitString.RightAlign`: each byte takes the low bits of the
byte before it. -/
def rightAlignAux (shift : Nat) : Nat → List Nat → List Nat
  | _, [] => []
  | before, b :: rest =>
    (before * 2 ^ (8 - shift) % 256 + b / 2 ^ shift) :: rightAlignAux shift b rest

/-- Go `BitString.RightAlign`. -/
def BitString.RightAlign (b : BitString) : List Nat :=
  let shift := 8 - b.BitLength % 8
  if shift = 8 ∨ b.Bytes.length = 0 then b.Bytes else rightAlignAux shift 0 b.Bytes

/-- Go `asn1.RawValue`, the two fields the parser reads. -/
structure RawValue where
  Bytes : List Nat
  FullBytes : List Nat
deriving DecidableEq, Repr

/-- Go `parseField` for an optional `RawValue`: absent at the end of the
sequence, otherwise any element whose content fits. -/
def parseOptionalRawValue (bytes : List Nat) : Option (RawValue × List Nat) :=
  match bytes with
  | [] => some (⟨[], []⟩, [])
  | _ :: _ =>
    match parseTagAndLength bytes with
    | none => none
    | some (t, rest) =>
      if rest.length < t.length then none
      else
        some (⟨rest.take t.length, bytes.take (bytes.length - rest.length + t.length)⟩,
          rest.drop t.length)

end asn1

/-! ## `cryptobyte`, as far as `x509.ParsePKIXPublicKey` uses it -/

namespace cryptobyte

/-- Go `String.readASN1` with the header skipped: the tag byte, the content
and the bytes after the element.  Only single-byte tags; a long-form length
has 1 to 4 bytes, is at least 128, has no leading zero byte and does not
overflow 32 bits with its header. -/
def readASN1 (s : List Nat) : Option (Nat × List Nat × List Nat) :=
  match s with
  | tag :: lenByte :: rest =>
    if tag % 32 = 31 then none
    else if lenByte < 128 then
      if rest.length < lenByte then none
      else some (tag, rest.take lenByte, rest.drop lenByte)
    else
      let lenLen := lenByte % 128
      if lenLen = 0 ∨ lenLen > 4 ∨ rest.length < lenLen then none
      else
        let len32 := bytesToNat (rest.take lenLen)
        if len32 < 128 then none
        else if len32 / 256 ^ (lenLen - 1) = 0 then none
        else if 2 + lenLen + len32 ≥ 4294967296 then none
        else if (rest.drop lenLen).length < len32 then none
        else some (tag, (rest.drop lenLen).take len32, (rest.drop lenLen).drop len32)
  | _ => none

/-- Go `String.ReadASN1`: the element must carry the tag byte `tag`. -/
def ReadASN1 (s : List Nat) (tag : Nat) : Option (List Nat × List Nat) :=
  match readASN1 s with
  | none => none
  | some (t, content, rest) => if t ≠ tag then none else some (content, rest)

/-- Go `checkASN1Integer`: at least one byte, and minimally encoded. -/
def checkASN1Integer (bytes : List Nat) : Bool :=
  match bytes with
  | [] => false
  | [_] => true
  | b0 :: b1 :: _ => !((b0 = 0 ∧ b1 < 128) ∨ (b0 = 255 ∧ b1 ≥ 128))

/-- The value of the content of an INTEGER, two-complement big-endian
(`readASN1BigInt`). -/
def signedValue (bytes : List Nat) : Int :=
  match bytes with
  | [] => 0
  | b0 :: _ =>
    if b0 ≥ 128 then -((bytesToNat (bytes.map (fun b => 255 - b)) : Int) + 1)
    else (bytesToNat bytes : Int)

/-- Go `String.ReadASN1Integer` into a `*big.Int`. -/
def ReadASN1Integer (s : List Nat) : Option (Int × List Nat) :=
  match ReadASN1 s 2 with
  | none => none
  | some (bytes, rest) => if checkASN1Integer bytes then some (signedValue bytes, rest) else none

/-- Go `String.ReadASN1Integer` into an `*int` (64 bits): as for a
`*big.Int`, with at most 8 content bytes (`asn1Signed`). -/
def ReadASN1Int64 (s : List Nat) : Option (Int × List Nat) :=
  match ReadASN1 s 2 with
  | none => none
  | some (bytes, rest) =>
    if checkASN1Integer bytes ∧ bytes.length ≤ 8 then some (signedValue bytes, rest) else none

/-- Go `String.readBase128Int`: `i` counts the bytes read, `ret` is the value
so far; fails on a sixth byte, when the value reaches `1 << 24` before a
shift, on a leading 0x80 and at the end of the input. -/
def readBase128Int : List Nat → Nat → Nat → Option (Nat × List Nat)
  | [], _, _ => none
  | b :: rest, i, ret =>
    if i = 5 then none
    else if ret ≥ 16777216 then none
    else if i = 0 ∧ b = 128 then none
    else if b < 128 then some (ret * 128 + b % 128, rest)
    else readBase128Int rest (i + 1) (ret * 128 + b % 128)

/-- The sub-identifiers after the first one, in `ReadASN1ObjectIdentifier`. -/
def readObjectIdentifierRest : Nat → List Nat → Option (List Nat)
  | _, [] => some []
  | 0, _ :: _ => none
  | fuel + 1, b :: rest =>
    match readBase128Int (b :: rest) 0 0 with
    | none => none
    | some (v, rest1) => (readObjectIdentifierRest fuel rest1).map (fun s => v :: s)

/-- Go `String.ReadASN1ObjectIdentifier`. -/
def ReadASN1ObjectIdentifier (s : List Nat) : Option (List Nat × List Nat) :=
  match ReadASN1 s 6 with
  | none => none
  | some (bytes, rest) =>
    match bytes with
    | [] => none
    | _ :: _ =>
      match readBase128Int bytes 0 0 with
      | none => none
      | some (v, rest1) =>
        (readObjectIdentifierRest rest1.length rest1).map (fun s =>
          (if v < 80 then v / 40 :: v % 40 :: s else 2 :: (v - 80) :: s, rest))

end cryptobyte

/-! ## `crypto/rsa` -/

namespace rsa

/-- Go `rsa.PublicKey`: modulus and public exponent. -/
structure PublicKey where
  N : Nat
  E : Nat
deriving DecidableEq, Repr

/-- Go `PublicKey.Size`: the modulus size in bytes, `(N.BitLen() + 7) / 8`. -/
def PublicKey.Size (pub : PublicKey) : Nat := (bitLen pub.N + 7) / 8

/-- The errors `rsa.EncryptPKCS1v15` returns. -/
inductive Error where
  | errPublicExponentSmall
  | errPublicExponentLarge
  | ErrMessageTooLong
  | readError
  | modulusEven
  | inputOverflowsModulus
deriving DecidableEq, Repr

deriving instance DecidableEq for Except

/-- The source `crypto/rand.Reader` as one call sees it: the bytes it will
deliver, and whether `randutil.MaybeReadByte` takes its byte. -/
structure RandReader where
  coin : Bool
  supply : List (Fin 256)
deriving DecidableEq, Repr

/-- Go `randutil.MaybeReadByte`: reads one byte or none. -/
def MaybeReadByte (random : RandReader) : List (Fin 256) :=
  if random.coin then random.supply.drop 1 else random.supply

/-- The inner loop `for s[i] == 0` of `nonZeroRandomBytes`: reads one byte at
a time and flips it with 0x42 until the result is not zero. -/
def redraw : List (Fin 256) → Option (Nat × List (Fin 256))
  | [] => none
  | r :: rest => if r.val ^^^ 66 ≠ 0 then some (r.val ^^^ 66, rest) else redraw rest

/-- The outer loop of `nonZeroRandomBytes` over the bytes read first. -/
def nonZeroLoop : List Nat → List (Fin 256) → Option (List Nat × List (Fin 256))
  | [], supply => some ([], supply)
  | b :: rest, supply =>
    if b ≠ 0 then (nonZeroLoop rest supply).map (fun r => (b :: r.1, r.2))
    else
      match redraw supply with
      | none => none
      | some (b1, supply1) => (nonZeroLoop rest supply1).map (fun r => (b1 :: r.1, r.2))

/-- Go `nonZeroRandomBytes` for a buffer of `n` bytes: `io.ReadFull` of `n`
bytes, then every zero byte is drawn again.  `none` is a read error. -/
def nonZeroRandomBytes (n : Nat) (supply : List (Fin 256)) :
    Option (List Nat × List (Fin 256)) :=
  if supply.length < n then none
  else nonZeroLoop ((supply.take n).map (fun b => b.val)) (supply.drop n)

/-- Go `checkPub`: the public exponent is at least 2 and at most `1<<31 - 1`. -/
def checkPub (pub : PublicKey) : Option Error :=
  if pub.E < 2 then some .errPublicExponentSmall
  else if pub.E > 2147483647 then some .errPublicExponentLarge
  else none

/-- Go `rsa.encrypt`: the modulus must be odd (`bigmod.NewModulusFromBig`),
the padded message below it (`Nat.SetBytes`); the result is
`em ^ E mod N` on `Size` bytes. -/
def encrypt (pub : PublicKey) (em : List Nat) : Except Error (List Nat) :=
  if pub.N % 2 = 0 then .error .modulusEven
  else if bytesToNat em ≥ pub.N then .error .inputOverflowsModulus
  else .ok (natToBytes pub.Size (modExp (bytesToNat em) pub.E pub.N))

/-- The encoded message `EM = 0x00 || 0x02 || PS || 0x00 || M` that
`EncryptPKCS1v15` builds in the buffer `em`. -/
def encodedMessage (ps msg : List Nat) : List Nat := [0, 2] ++ ps ++ [0] ++ msg

/-- Go `rsa.EncryptPKCS1v15`: the encoded message has `PS` of
`k - len(msg) - 3` random non-zero bytes. -/
def EncryptPKCS1v15 (random : RandReader) (pub : PublicKey) (msg : List Nat) :
    Except Error (List Nat) :=
  let supply := MaybeReadByte random
  match checkPub pub with
  | some err => .error err
  | none =>
    let k := pub.Size
    if msg.length + 11 > k then .error .ErrMessageTooLong
    else
      match nonZeroRandomBytes (k - msg.length - 3) supply with
      | none => .error .readError
      | some (ps, _) => encrypt pub (encodedMessage ps msg)

end rsa

/-! ## `crypto/elliptic`, the four NIST curves of `x509` -/

namespace elliptic

/-- Go `elliptic.CurveParams`, the fields point decoding uses: the curve is
`y² = x³ - 3x + B` over the field of `P` elements. -/
structure CurveParams where
  Name : String
  P : Nat
  B : Nat
  BitSize : Nat
deriving DecidableEq, Repr

/-- Go `elliptic.P224()`. -/
def P224 : CurveParams :=
  ⟨"P-224", 26959946667150639794667015087019630673557916260026308143510066298881,
    18958286285566608000408668544493926415504680968679321075787234672564, 224⟩

/-- Go `elliptic.P256()`. -/
def P256 : CurveParams :=
  ⟨"P-256", 115792089210356248762697446949407573530086143415290314195533631308867097853951,
    41058363725152142129326129780047268409114441015993725554835256314039467401291, 256⟩

/-- Go `elliptic.P384()`. -/
def P384 : CurveParams :=
  ⟨"P-384",
    39402006196394479212279040100143613805079739270465446667948293404245721771496870329047266088258938001861606973112319,
    27580193559959705877849011840389048093056905856361568521428707301988689241309860865136260764883745107765439761230575,
    384⟩

/-- Go `elliptic.P521()`. -/
def P521 : CurveParams :=
  ⟨"P-521",
    6864797660130609714981900799081393217269435300143305409394463459185543183397656052122559640661454554977296311391480858037121987999716643812574028291115057151,
    1093849038073734274511112390766805569936207598951683748994586394495953116150735016013708737573759623248592132296706313309438452531591012912142327488478985984,
    521⟩

/-- Go `elliptic.Unmarshal` on a NIST curve: an uncompressed point, byte 4
followed by the two coordinates, each below `P`, that lies on the curve. -/
def Unmarshal (curve : CurveParams) (data : List Nat) : Option (Nat × Nat) :=
  let byteLen := (curve.BitSize + 7) / 8
  match data with
  | [] => none
  | form :: coords =>
    if form ≠ 4 ∨ coords.length ≠ 2 * byteLen then none
    else
      let x := bytesToNat (coords.take byteLen)
      let y := bytesToNat (coords.drop byteLen)
      if x ≥ curve.P ∨ y ≥ curve.P then none
      else if (y * y + 3 * x) % curve.P ≠ (x * x * x + curve.B) % curve.P then none
      else some (x, y)

end elliptic

/-! ## `crypto/x509`: `ParsePKIXPublicKey` -/

namespace x509

/-- The public keys `x509.ParsePKIXPublicKey` returns: `*rsa.PublicKey`,
`*ecdsa.PublicKey`, `ed25519.PublicKey`, `*ecdh.PublicKey` (X25519) and
`*dsa.PublicKey`. -/
inductive PublicKey where
  | rsa (pub : rsa.PublicKey)
  | ecdsa (curve : elliptic.CurveParams) (x y : Nat)
  | ed25519 (key : List Nat)
  | x25519 (key : List Nat)
  | dsa (p q g y : Nat)
deriving DecidableEq, Repr

/-- OID 1.2.840.113549.1.1.1, rsaEncryption. -/
def oidPublicKeyRSA : List Nat := [1, 2, 840, 113549, 1, 1, 1]
/-- OID 1.2.840.10040.4.1, DSA. -/
def oidPublicKeyDSA : List Nat := [1, 2, 840, 10040, 4, 1]
/-- OID 1.2.840.10045.2.1, id-ecPublicKey. -/
def oidPublicKeyECDSA : List Nat := [1, 2, 840, 10045, 2, 1]
/-- OID 1.3.101.112, Ed25519. -/
def oidPublicKeyEd25519 : List Nat := [1, 3, 101, 112]
/-- OID 1.3.101.110, X25519. -/
def oidPublicKeyX25519 : List Nat := [1, 3, 101, 110]

/-- Go `namedCurveFromOID`. -/
def namedCurveFromOID (oid : List Nat) : Option elliptic.CurveParams :=
  if oid = [1, 3, 132, 0, 33] then some elliptic.P224
  else if oid = [1, 2, 840, 10045, 3, 1, 7] then some elliptic.P256
  else if oid = [1, 3, 132, 0, 34] then some elliptic.P384
  else if oid = [1, 3, 132, 0, 35] then some elliptic.P521
  else none

/-- Go `pkix.AlgorithmIdentifier`. -/
structure AlgorithmIdentifier where
  Algorithm : List Nat
  Parameters : asn1.RawValue
deriving DecidableEq, Repr

/-- Go `publicKeyInfo`, the SubjectPublicKeyInfo structure. -/
structure publicKeyInfo where
  Algorithm : AlgorithmIdentifier
  PublicKey : asn1.BitString
deriving DecidableEq, Repr

/-- Go `asn1` parsing of the field `Algorithm`: a SEQUENCE of an OBJECT
IDENTIFIER and optional parameters; further bytes in the SEQUENCE are
allowed.  Returns the bytes after the element as well. -/
def parseAlgorithmIdentifier (bytes : List Nat) : Option (AlgorithmIdentifier × List Nat) :=
  match asn1.parseUniversal 16 true bytes with
  | none => none
  | some (inner, rest) =>
    match asn1.parseUniversal 6 false inner with
    | none => none
    | some (oidBytes, inner1) =>
      match asn1.parseObjectIdentifier oidBytes with
      | none => none
      | some oid =>
        match asn1.parseOptionalRawValue inner1 with
        | none => none
        | some (params, _) => some (⟨oid, params⟩, rest)

/-- Go `asn1.Unmarshal(derBytes, &pki)` followed by the test for trailing
data: a SEQUENCE of the algorithm and the BIT STRING of the key, with nothing
after it. -/
def unmarshalPublicKeyInfo (derBytes : List Nat) : Option publicKeyInfo :=
  match asn1.parseUniversal 16 true derBytes with
  | none => none
  | some (inner, rest) =>
    match parseAlgorithmIdentifier inner with
    | none => none
    | some (algorithm, inner1) =>
      match asn1.parseUniversal 3 false inner1 with
      | none => none
      | some (bits, _) =>
        match asn1.parseBitString bits with
        | none => none
        | some publicKey => if rest.length ≠ 0 then none else some ⟨algorithm, publicKey⟩

/-- The RSA case of Go `parsePublicKey`: the parameters are the two bytes of
a NULL, the key is a SEQUENCE of the modulus and the public exponent, both
positive. -/
def parseRSA (params : asn1.RawValue) (der : List Nat) : Option PublicKey :=
  if params.FullBytes ≠ [5, 0] then none
  else
    match cryptobyte.ReadASN1 der 48 with
    | none => none
    | some (der1, _) =>
      match cryptobyte.ReadASN1Integer der1 with
      | none => none
      | some (n, der2) =>
        match cryptobyte.ReadASN1Int64 der2 with
        | none => none
        | some (e, _) =>
          if n ≤ 0 then none
          else if e ≤ 0 then none
          else some (.rsa ⟨n.toNat, e.toNat⟩)

/-- The ECDSA case of Go `parsePublicKey`: the parameters name one of the
four curves and the key is a point of it. -/
def parseECDSA (params : asn1.RawValue) (der : List Nat) : Option PublicKey :=
  match cryptobyte.ReadASN1ObjectIdentifier params.FullBytes with
  | none => none
  | some (namedCurveOID, _) =>
    match namedCurveFromOID namedCurveOID with
    | none => none
    | some namedCurve =>
      match elliptic.Unmarshal namedCurve der with
      | none => none
      | some (x, y) => some (.ecdsa namedCurve x y)

/-- The DSA case of Go `parsePublicKey`: the key is an INTEGER, the
parameters a SEQUENCE of three, all positive. -/
def parseDSA (params : asn1.RawValue) (der : List Nat) : Option PublicKey :=
  match cryptobyte.ReadASN1Integer der with
  | none => none
  | some (y, _) =>
    match cryptobyte.ReadASN1 params.FullBytes 48 with
    | none => none
    | some (paramsDer, _) =>
      match cryptobyte.ReadASN1Integer paramsDer with
      | none => none
      | some (p, paramsDer1) =>
        match cryptobyte.ReadASN1Integer paramsDer1 with
        | none => none
        | some (q, paramsDer2) =>
          match cryptobyte.ReadASN1Integer paramsDer2 with
          | none => none
          | some (g, _) =>
            if y ≤ 0 ∨ p ≤ 0 ∨ q ≤ 0 ∨ g ≤ 0 then none
            else some (.dsa p.toNat q.toNat g.toNat y.toNat)

/-- Go `parsePublicKey`: the key by its algorithm. -/
def parsePublicKey (keyData : publicKeyInfo) : Option PublicKey :=
  let oid := keyData.Algorithm.Algorithm
  let params := keyData.Algorithm.Parameters
  let der := keyData.PublicKey.RightAlign
  if oid = oidPublicKeyRSA then parseRSA params der
  else if oid = oidPublicKeyECDSA then parseECDSA params der
  else if oid = oidPublicKeyEd25519 then
    if params.FullBytes.length ≠ 0 then none
    else if der.length ≠ 32 then none
    else some (.ed25519 der)
  else if oid = oidPublicKeyX25519 then
    if params.FullBytes.length ≠ 0 then none
    else if der.length ≠ 32 then none
    else some (.x25519 der)
  else if oid = oidPublicKeyDSA then parseDSA params der
  else none

/-- Go `x509.ParsePKIXPublicKey`; `none` when it returns an error. -/
def ParsePKIXPublicKey (derBytes : List Nat) : Option PublicKey :=
  match unmarshalPublicKeyInfo derBytes with
  | none => none
  | some pki => parsePublicKey pki

end x509

/-! ## `main.go` -/

/-- Go `OpenAPIRequest`. -/
structure OpenAPIRequest where
  Env : String
  APIKey : String
deriving DecidableEq, Repr

/-- Go `OpenAPIResponse`. -/
structure OpenAPIResponse where
  SessionKey : String
deriving DecidableEq, Repr

/-- Go `OpenAPIErrorResponse`. -/
structure OpenAPIErrorResponse where
  Error : String
deriving DecidableEq, Repr

/-- Go `EnvironmentConfig`. -/
structure EnvironmentConfig where
  Name : String
  PublicKey : String
deriving DecidableEq, Repr

/-- Go `AppConfig`. -/
structure AppConfig where
  Environments : List EnvironmentConfig
deriving DecidableEq, Repr

/-- Go `EncryptAPIKey`, with the state of `rand.Reader` as an argument: the
pair of the encrypted key and the error text, one of them empty. -/
def EncryptAPIKey (random : rsa.RandReader) (envPublicKey apiKey : String) : String × String :=
  match base64.StdEncoding.DecodeString envPublicKey with
  | none => ("", "Error decoding base64-encoded public key")
  | some publicKeyBytes =>
    match x509.ParsePKIXPublicKey publicKeyBytes with
    | none => ("", "Error parsing public key")
    | some publicKey =>
      match publicKey with
      | .rsa rsaPublicKey =>
        match rsa.EncryptPKCS1v15 random rsaPublicKey (stringBytes apiKey) with
        | .error _ => ("", "Error encrypting access token")
        | .ok encryptedToken => (base64.StdEncoding.EncodeToString encryptedToken, "")
      | _ => ("", "Error converting to RSA public key")

/-! ## `net/http`: the response writer -/

namespace http

/-- What a handler writes to the response: a JSON document made by
`json.Encoder.Encode` from one of the two response structures, or a line of
text made by `http.Error`. -/
inductive Body where
  | errorJSON (v : OpenAPIErrorResponse)
  | responseJSON (v : OpenAPIResponse)
  | text (line : String)
deriving DecidableEq, Repr

/-- The state of an `http.ResponseWriter`: the header map, the status code
once the header is written, the body written so far, and whether the
connection refuses writes. -/
structure ResponseWriter where
  header : List (String × String)
  status : Option Nat
  body : List Body
  writeFails : Bool
deriving DecidableEq, Repr

/-- A response writer as the server hands it to a handler, on a connection
that takes the writes. -/
def ResponseWriter.fresh : ResponseWriter := ⟨[], none, [], false⟩

/-- Go `w.Header().Set(key, value)`. -/
def ResponseWriter.SetHeader (w : ResponseWriter) (key value : String) : ResponseWriter :=
  { w with header := (key, value) :: w.header.filter (fun kv => kv.1 ≠ key) }

/-- Go `w.WriteHeader(code)`: the first call fixes the status, a later one
changes nothing. -/
def ResponseWriter.WriteHeader (w : ResponseWriter) (code : Nat) : ResponseWriter :=
  match w.status with
  | some _ => w
  | none => { w with status := some code }

/-- Go `w.Write`: writes the header with status 200 when it is not written
yet, then the data; `false` when the write returns an error. -/
def ResponseWriter.Write (w : ResponseWriter) (data : Body) : ResponseWriter × Bool :=
  let w1 := w.WriteHeader 200
  if w1.writeFails then (w1, false) else ({ w1 with body := w1.body ++ [data] }, true)

/-- Go `http.Error`: a plain-text reply with the given status code. -/
def Error (w : ResponseWriter) (error : String) (code : Nat) : ResponseWriter :=
  let w1 := w.SetHeader "Content-Type" "text/plain; charset=utf-8"
  let w2 := w1.SetHeader "X-Content-Type-Options" "nosniff"
  ((w2.WriteHeader code).Write (.text error)).1

/-- Hypertext status 200, `http.StatusOK`. -/
def StatusOK : Nat := 200
/-- Hypertext status 400, `http.StatusBadRequest`. -/
def StatusBadRequest : Nat := 400
/-- Hypertext status 500, `http.StatusInternalServerError`. -/
def StatusInternalServerError : Nat := 500

end http

/-- The loop of `OpenAPIHandler` over `appConfig.Environments`: the key of
the first entry whose name equals the requested one, the empty string when
there is none. -/
def lookupPublicKey : List EnvironmentConfig → String → String
  | [], _ => ""
  | env :: rest, name => if env.Name = name then env.PublicKey else lookupPublicKey rest name

/-- What one run of `OpenAPIHandler` leaves: the response writer, and the
arguments of each call of `EncryptAPIKey` it made. -/
structure Handled where
  w : http.ResponseWriter
  calls : List (String × String)
deriving DecidableEq, Repr

/-- Go `OpenAPIHandler`.  `appConfig` is the global configuration, `random`
the state of `rand.Reader`, `request` the decoded request body, `none` when
`json.Decoder.Decode` fails. -/
def OpenAPIHandler (appConfig : AppConfig) (random : rsa.RandReader) (w : http.ResponseWriter)
    (request : Option OpenAPIRequest) : Handled :=
  match request with
  | none => ⟨http.Error w "Invalid request body" http.StatusBadRequest, []⟩
  | some request =>
    let publicKey := lookupPublicKey appConfig.Environments request.Env
    if publicKey = "" then
      let written := w.Write (.errorJSON ⟨"Invalid environment"⟩)
      if written.2 then ⟨written.1, []⟩
      else ⟨http.Error written.1 "Invalid environment" http.StatusBadRequest, []⟩
    else
      let result := EncryptAPIKey random publicKey request.APIKey
      if result.2 ≠ "" then
        let written := w.Write (.errorJSON ⟨result.2⟩)
        if written.2 then ⟨written.1, [(publicKey, request.APIKey)]⟩
        else
          ⟨http.Error written.1 "Failed to send response" http.StatusInternalServerError,
            [(publicKey, request.APIKey)]⟩
      else
        let w1 := w.SetHeader "Content-Type" "application/json"
        let written := w1.Write (.responseJSON ⟨result.1⟩)
        if written.2 then ⟨written.1, [(publicKey, request.APIKey)]⟩
        else
          ⟨http.Error written.1 "Failed to send response" http.StatusInternalServerError,
            [(publicKey, request.APIKey)]⟩

/-! ## Notions of the specification

The program only encrypts.  The round trip of the specification needs the
DER encoding of an RSA public key, the decryption of PKCS #1 v1.5 and the
notion of a key pair; they are defined here after RFC 8017 and X.690, as
`x509.MarshalPKIXPublicKey`, `rsa.DecryptPKCS1v15` and `PrivateKey.Validate`
of the Go library do them. -/

namespace der

/-- The big-endian bytes of `n` without leading zeros (`big.Int.Bytes`). -/
def minimalBytes (n : Nat) : List Nat := natToBytes ((bitLen n + 7) / 8) n

/-- DER length octets: short form below 128, long form above. -/
def encodeLength (n : Nat) : List Nat :=
  if n < 128 then [n] else (128 + (minimalBytes n).length) :: minimalBytes n

/-- DER element: identifier octet, length, content. -/
def element (tag : Nat) (content : List Nat) : List Nat :=
  tag :: (encodeLength content.length ++ content)

/-- DER content of a non-negative INTEGER: minimal, with a zero byte in
front when the first bit is set. -/
def integerContent (n : Nat) : List Nat :=
  match minimalBytes n with
  | [] => [0]
  | b :: rest => if b ≥ 128 then 0 :: b :: rest else b :: rest

/-- DER INTEGER of a non-negative number. -/
def integer (n : Nat) : List Nat := element 2 (integerContent n)

/-- The AlgorithmIdentifier of rsaEncryption with NULL parameters. -/
def rsaAlgorithm : List Nat := [48, 13, 6, 9, 42, 134, 72, 134, 247, 13, 1, 1, 1, 5, 0]

end der

/-- The `RSAPublicKey` of PKCS #1: SEQUENCE of modulus and exponent. -/
def x509.MarshalPKCS1PublicKey (pub : rsa.PublicKey) : List Nat :=
  der.element 48 (der.integer pub.N ++ der.integer pub.E)

/-- The DER encoding of an RSA public key as SubjectPublicKeyInfo
(`x509.MarshalPKIXPublicKey`). -/
def x509.MarshalPKIXPublicKey (pub : rsa.PublicKey) : List Nat :=
  der.element 48 (der.rsaAlgorithm ++ der.element 3 (0 :: x509.MarshalPKCS1PublicKey pub))

/-- Removal of the PKCS #1 v1.5 encryption padding from an encoded message
`0x00 || 0x02 || PS || 0x00 || M`: `PS` has no zero byte and at least eight
bytes. -/
def rsa.unpad (em : List Nat) : Option (List Nat) :=
  match em with
  | 0 :: 2 :: rest =>
    let ps := rest.takeWhile (fun b => b ≠ 0)
    if ps.length < 8 ∨ ps.length = rest.length then none else some (rest.drop (ps.length + 1))
  | _ => none

/-- Decryption RSAES-PKCS1-v1_5 of RFC 8017, section 7.2.2, with the modulus
`N` and the private exponent `D` (`rsa.DecryptPKCS1v15` in Go): the modulus
has 11 bytes or more, the ciphertext has the size of the modulus and is below
it. -/
def rsa.DecryptPKCS1v15 (N D : Nat) (ciphertext : List Nat) : Option (List Nat) :=
  let k := (bitLen N + 7) / 8
  if k < 11 ∨ ciphertext.length ≠ k ∨ bytesToNat ciphertext ≥ N then none
  else rsa.unpad (natToBytes k (modExp (bytesToNat ciphertext) D N))

/-- A valid RSA key pair, of any number of prime factors: what
`PrivateKey.Validate` checks (the public exponent is in the range of
`checkPub`, the modulus is the product of the factors, and
`E * D ≡ 1 (mod p - 1)` for each of them), with the factors prime and
distinct. -/
structure rsa.ValidKeyPair (N E D : Nat) (primes : List Nat) : Prop where
  exponent_min : 2 ≤ E
  exponent_max : E ≤ 2147483647
  prime : ∀ p ∈ primes, Nat.Prime p
  nodup : primes.Nodup
  modulus : N = primes.prod
  exponents : ∀ p ∈ primes, E * D % (p - 1) = 1

/-- The random source delivers the `n` non-zero padding bytes of one
encryption. -/
def rsa.RandReader.Supplies (random : rsa.RandReader) (n : Nat) : Prop :=
  (rsa.nonZeroRandomBytes n (rsa.MaybeReadByte random)).isSome

instance (random : rsa.RandReader) (n : Nat) : Decidable (random.Supplies n) :=
  inferInstanceAs
    (Decidable ((rsa.nonZeroRandomBytes n (rsa.MaybeReadByte random)).isSome = true))

/-- The padding string one encryption draws from the random source. -/
def rsa.RandReader.padding (random : rsa.RandReader) (n : Nat) : Option (List Nat) :=
  (rsa.nonZeroRandomBytes n (rsa.MaybeReadByte random)).map (fun r => r.1)

/-! ## Concrete keys

A key pair of 117 bits with five prime factors, small enough for its primes
to be checked, and three public keys made with OpenSSL: RSA of 2048 bits,
Ed25519 and ECDSA on P-256. -/

/-- The prime factors of the modulus of the small key pair. -/
def samplePrimes : List Nat := [9000011, 10000019, 11000027, 12000017, 13000027]

/-- The modulus of the small key pair, 117 bits, 15 bytes. -/
def sampleN : Nat := 154441400831005579802324613111590137

/-- The public exponent of the small key pair. -/
def sampleE : Nat := 65537

/-- The private exponent of the small key pair. -/
def sampleD : Nat := 1159128872493062951712933702290273

/-- The public key of the small key pair. -/
def samplePublicKey : rsa.PublicKey := ⟨sampleN, sampleE⟩

/-- The base64 of the DER encoding of the small public key. -/
def sampleKey : String := "MCowDQYJKoZIhvcNAQEBBQADGQAwFgIPHb6MiD7wWfkiPkFmXaz5AgMBAAE="

/-- A random source: one of its first eight bytes is zero and is drawn
again. -/
def sampleRandom : rsa.RandReader := ⟨false, [17, 0, 66, 200, 3, 4, 5, 6, 7, 8, 9]⟩

/-- A second random source, which differs in the first byte. -/
def sampleRandom2 : rsa.RandReader := ⟨true, [1, 18, 9, 66, 200, 3, 4, 5, 6, 7, 8]⟩

/-- A random source that has run dry. -/
def emptyRandom : rsa.RandReader := ⟨false, []⟩

/-- The modulus of the 2048-bit key. -/
def rsa2048N : Nat :=
  26777509778576194438205619462399201336258165342990779392015321482500915437049106720328433249178554549641921374079381567765712715566886435503027417341005286182518324231083975969165440646552703689679560499006200524645178947132179405002469139288373509351888089245903888636961468583445790477011220145992389719780970255473172046177521380433534099704690469140942035138506339596345185349519333093584467946984702127440203752735657599842376206390447375934322883608381409218008776669870769557074174643463028786043062782088961709359945856244485819093736990560532605622324325151529176150068136718892480234741035240635927582604971

/-- The 2048-bit public key, exponent 65537. -/
def rsa2048PublicKey : rsa.PublicKey := ⟨rsa2048N, 65537⟩

/-- The base64 of the DER encoding of the 2048-bit public key. -/
def rsa2048Key : String :=
  "MIIBIjANBgkqhkiG9w0BAQEFAAOCAQ8AMIIBCgKCAQEA1B5liBBfckxCStPpg7iXo7QMiZBBhg2xn16TvvlrD/X0Ba7UMg+wFJvrLCObTPpZVamC81n4OBu3WWIcAt5UD7EGm1C6dT3rYOXswoCfnB7HN9XeBgyuX5N7phRpd9Ywx5upp7oZa9qQSfY2YWuOjBJo/VBUsz5kL1xvnNFsl18CTSOKvqdH43FjuJy61H3ajHWO3IEd4xm12juPv2Q/MnQnJHFs1hWYFht2NLkz4vdv2z5lCIbxEj8nwAm3/vdWZnDUMNIZJuGN+b8XaG9Skl/01LllhYg7v+cjuqBgt6e09S0hdrcUz9vr+s9gS5assNR4iLHd6FcugAmSWY3+qwIDAQAB"

/-- A random source of 300 bytes. -/
def longRandom : rsa.RandReader := ⟨false, List.replicate 300 7⟩

/-- The base64 of the DER encoding of an Ed25519 public key. -/
def ed25519Key : String := "MCowBQYDK2VwAyEAltOio60wim61TaYmwxI7O03H6CQ9LnapUVuBfTn857A="

/-- The base64 of the DER encoding of an ECDSA public key on P-256. -/
def ecdsaKey : String :=
  "MFkwEwYHKoZIzj0CAQYIKoZIzj0DAQcDQgAEpg87/HWw+rjQNjocNOaLVnSmhG0ChlJJ3fcWcbFZ08eiPTkkirxnARuPk9OADe7fU7tGz+7wiP9E97LuQ8durw=="

end Encrypter
namespace Encrypter

/-! ## Lemmas on byte strings -/

theorem bytesToNat_cons (b : Nat) (rest : List Nat) :
    bytesToNat (b :: rest) = b * 256 ^ rest.length + bytesToNat rest := rfl

theorem natToBytes_succ (k n : Nat) :
    natToBytes (k + 1) n = natToBytes k (n / 256) ++ [n % 256] := rfl

theorem natToBytes_length (k n : Nat) : (natToBytes k n).length = k := by
  induction k generalizing n with
  | zero => rfl
  | succ k ih => simp [natToBytes, ih]

theorem natToBytes_lt (k n : Nat) : ∀ b ∈ natToBytes k n, b < 256 := by
  induction k generalizing n with
  | zero => simp [natToBytes]
  | succ k ih =>
    intro b hb
    simp only [natToBytes, List.mem_append, List.mem_singleton] at hb
    rcases hb with hb | hb
    · exact ih _ b hb
    · omega

theorem bytesToNat_append (a b : List Nat) :
    bytesToNat (a ++ b) = bytesToNat a * 256 ^ b.length + bytesToNat b := by
  induction a with
  | nil => simp [bytesToNat]
  | cons x a ih =>
    rw [List.cons_append, bytesToNat_cons, bytesToNat_cons, ih, List.length_append, pow_add]
    ring

theorem bytesToNat_lt (bs : List Nat) (h : ∀ b ∈ bs, b < 256) :
    bytesToNat bs < 256 ^ bs.length := by
  induction bs with
  | nil => simp [bytesToNat]
  | cons x bs ih =>
    have hx : x < 256 := h x (List.mem_cons_self _ _)
    have := ih (fun b hb => h b (List.mem_cons_of_mem _ hb))
    simp only [bytesToNat, List.length_cons, pow_succ]
    nlinarith

theorem bytesToNat_natToBytes (k n : Nat) : bytesToNat (natToBytes k n) = n % 256 ^ k := by
  induction k generalizing n with
  | zero => simp [natToBytes, bytesToNat, Nat.mod_one]
  | succ k ih =>
    rw [natToBytes_succ, bytesToNat_append, ih, pow_succ, mul_comm (256 ^ k) 256, Nat.mod_mul]
    simp [bytesToNat]
    ring

theorem bytesToNat_natToBytes_of_lt (k n : Nat) (h : n < 256 ^ k) :
    bytesToNat (natToBytes k n) = n := by
  rw [bytesToNat_natToBytes, Nat.mod_eq_of_lt h]

theorem natToBytes_bytesToNat (bs : List Nat) (h : ∀ b ∈ bs, b < 256) :
    natToBytes bs.length (bytesToNat bs) = bs := by
  induction bs using List.reverseRecOn with
  | nil => rfl
  | append_singleton init last ih =>
    have hl : last < 256 := h last (by simp)
    have hi := ih (fun b hb => h b (by simp [hb]))
    rw [List.length_append, List.length_singleton, natToBytes_succ, bytesToNat_append]
    simp only [bytesToNat, List.length_singleton, List.length_nil, pow_zero, pow_one, mul_one,
      add_zero]
    have h1 : (bytesToNat init * 256 + last) / 256 = bytesToNat init := by omega
    have h2 : (bytesToNat init * 256 + last) % 256 = last := by omega
    rw [h1, h2, hi]

theorem natToBytes_succ_cons (k n : Nat) :
    natToBytes (k + 1) n = (n / 256 ^ k % 256) :: natToBytes k n := by
  induction k generalizing n with
  | zero => simp [natToBytes]
  | succ k ih =>
    rw [natToBytes_succ, ih, List.cons_append, ← natToBytes_succ, Nat.div_div_eq_div_mul,
      pow_succ, mul_comm 256]

theorem bitLenAux_spec (fuel n : Nat) (h : n ≤ fuel) :
    n < 2 ^ bitLenAux fuel n ∧ (n ≠ 0 → 2 ^ (bitLenAux fuel n - 1) ≤ n) := by
  induction fuel generalizing n with
  | zero =>
    have : n = 0 := by omega
    subst this
    simp [bitLenAux]
  | succ fuel ih =>
    unfold bitLenAux
    by_cases hn : n = 0
    · simp [hn]
    · simp only [hn, if_false, Nat.add_sub_cancel]
      have hle : n / 2 ≤ fuel := by omega
      obtain ⟨h1, h2⟩ := ih (n / 2) hle
      constructor
      · rw [pow_succ]; omega
      · intro _
        by_cases h0 : n / 2 = 0
        · have : n = 1 := by omega
          subst this
          simp [bitLenAux]
          cases fuel <;> simp [bitLenAux]
        · have h3 := h2 h0
          have hpos : 0 < bitLenAux fuel (n / 2) := by
            rcases Nat.eq_zero_or_pos (bitLenAux fuel (n / 2)) with hz | hz
            · rw [hz] at h1; omega
            · exact hz
          have : bitLenAux fuel (n / 2) = (bitLenAux fuel (n / 2) - 1) + 1 := by omega
          rw [this, pow_succ]
          omega

theorem lt_two_pow_bitLen (n : Nat) : n < 2 ^ bitLen n := (bitLenAux_spec n n le_rfl).1

theorem two_pow_bitLen_le (n : Nat) (h : n ≠ 0) : 2 ^ (bitLen n - 1) ≤ n :=
  (bitLenAux_spec n n le_rfl).2 h

theorem bitLen_pos (n : Nat) (h : n ≠ 0) : 0 < bitLen n := by
  rcases Nat.eq_zero_or_pos (bitLen n) with hz | hz
  · have := lt_two_pow_bitLen n
    rw [hz] at this
    omega
  · exact hz

/-- A number is below 256 to the power of its size in bytes. -/
theorem lt_pow_byteLen (n : Nat) : n < 256 ^ ((bitLen n + 7) / 8) := by
  have h := lt_two_pow_bitLen n
  have : (256 : Nat) ^ ((bitLen n + 7) / 8) = 2 ^ (8 * ((bitLen n + 7) / 8)) := by
    rw [pow_mul]; norm_num
  rw [this]
  exact lt_of_lt_of_le h (Nat.pow_le_pow_right (by norm_num) (by omega))

/-- A non-zero number reaches 256 to the power of its size in bytes less one. -/
theorem pow_byteLen_le (n : Nat) (h : n ≠ 0) : 256 ^ ((bitLen n + 7) / 8 - 1) ≤ n := by
  have h1 := two_pow_bitLen_le n h
  have h2 := bitLen_pos n h
  have : (256 : Nat) ^ ((bitLen n + 7) / 8 - 1) = 2 ^ (8 * ((bitLen n + 7) / 8 - 1)) := by
    rw [pow_mul]; norm_num
  rw [this]
  exact le_trans (Nat.pow_le_pow_right (by norm_num) (by omega)) h1

theorem modExpAux_eq (fuel base exp m : Nat) (h : exp ≤ fuel) :
    modExpAux fuel base exp m = base ^ exp % m := by
  induction fuel generalizing exp with
  | zero =>
    have : exp = 0 := by omega
    subst this
    simp [modExpAux]
  | succ fuel ih =>
    unfold modExpAux
    by_cases he : exp = 0
    · simp [he]
    · have hhalf := ih (exp / 2) (by omega)
      have hsplit : exp = exp / 2 + exp / 2 + exp % 2 := by omega
      have hsq : base ^ (exp / 2) % m * (base ^ (exp / 2) % m) % m =
          base ^ (exp / 2) * base ^ (exp / 2) % m := (Nat.mul_mod _ _ _).symm
      rw [if_neg he, hhalf, hsq]
      by_cases hodd : exp % 2 = 1
      · rw [if_pos hodd]
        conv_rhs => rw [hsplit, hodd, pow_succ, pow_add]
        exact (Nat.mod_modEq _ _).mul_right _
      · rw [if_neg hodd]
        have h0 : exp % 2 = 0 := by omega
        conv_rhs => rw [hsplit, h0, add_zero, pow_add]

theorem modExp_eq (base exp m : Nat) : modExp base exp m = base ^ exp % m :=
  modExpAux_eq exp base exp m le_rfl

end Encrypter
namespace Encrypter

/-! ## Lemmas on base64 -/

namespace base64

theorem decodeMap_encodeChar : ∀ v, v < 64 → decodeMap (encodeChar v) = some v := by
  decide

theorem decodeMap_padChar : decodeMap padChar = none := by decide

theorem isNewline_padChar : isNewline padChar = false := by decide

theorem decodeLoop_encodeChar (v : Nat) (hv : v < 64) (rest : List Char) (dbuf : List Nat) :
    decodeLoop (encodeChar v :: rest) dbuf =
      if dbuf.length = 3 then
        (decodeLoop rest []).map (fun out => quantumBytes (dbuf ++ [v]) ++ out)
      else decodeLoop rest (dbuf ++ [v]) := by
  rw [decodeLoop, decodeMap_encodeChar v hv]

theorem decodeLoop_enc0 (v : Nat) (hv : v < 64) (rest : List Char) :
    decodeLoop (encodeChar v :: rest) [] = decodeLoop rest [v] := by
  rw [decodeLoop_encodeChar v hv]; rfl

theorem decodeLoop_enc1 (v : Nat) (hv : v < 64) (rest : List Char) (x : Nat) :
    decodeLoop (encodeChar v :: rest) [x] = decodeLoop rest [x, v] := by
  rw [decodeLoop_encodeChar v hv]; rfl

theorem decodeLoop_enc2 (v : Nat) (hv : v < 64) (rest : List Char) (x y : Nat) :
    decodeLoop (encodeChar v :: rest) [x, y] = decodeLoop rest [x, y, v] := by
  rw [decodeLoop_encodeChar v hv]; rfl

theorem decodeLoop_enc3 (v : Nat) (hv : v < 64) (rest : List Char) (x y z : Nat) :
    decodeLoop (encodeChar v :: rest) [x, y, z] =
      (decodeLoop rest []).map (fun out => quantumBytes [x, y, z, v] ++ out) := by
  rw [decodeLoop_encodeChar v hv]; rfl

theorem decodeLoop_pad2 (a b : Nat) :
    decodeLoop [padChar, padChar] [a, b] = some (quantumBytes [a, b]) := by
  simp [decodeLoop, decodeMap_padChar, isNewline_padChar, skipNewlines]

theorem decodeLoop_pad1 (a b c : Nat) :
    decodeLoop [padChar] [a, b, c] = some (quantumBytes [a, b, c]) := by
  simp [decodeLoop, decodeMap_padChar, isNewline_padChar, skipNewlines]

/-- Decoding undoes encoding. -/
theorem decodeLoop_encodeBytes (bs : List Nat) (h : ∀ b ∈ bs, b < 256) :
    decodeLoop (encodeBytes bs) [] = some bs := by
  induction bs using encodeBytes.induct with
  | case1 => simp [encodeBytes, decodeLoop]
  | case2 a =>
    have ha : a < 256 := h a (by simp)
    rw [encodeBytes, decodeLoop_enc0 _ (by omega), decodeLoop_enc1 _ (by omega),
      decodeLoop_pad2]
    simp only [quantumBytes, Option.some.injEq, List.cons.injEq, and_true]
    omega
  | case3 a b =>
    have ha : a < 256 := h a (by simp)
    have hb : b < 256 := h b (by simp)
    rw [encodeBytes, decodeLoop_enc0 _ (by omega), decodeLoop_enc1 _ (by omega),
      decodeLoop_enc2 _ (by omega), decodeLoop_pad1]
    simp only [quantumBytes, Option.some.injEq, List.cons.injEq, and_true]
    omega
  | case4 a b c rest ih =>
    have ha : a < 256 := h a (by simp)
    have hb : b < 256 := h b (by simp)
    have hc : c < 256 := h c (by simp)
    have hrest := ih (fun x hx => h x (by simp [hx]))
    rw [encodeBytes, decodeLoop_enc0 _ (by omega), decodeLoop_enc1 _ (by omega),
      decodeLoop_enc2 _ (by omega), decodeLoop_enc3 _ (by omega), hrest]
    simp only [Option.map_some', quantumBytes, Option.some.injEq, List.cons_append,
      List.nil_append, List.cons.injEq, and_true]
    refine ⟨by omega, by omega, by omega⟩

theorem DecodeString_EncodeToString (bs : List Nat) (h : ∀ b ∈ bs, b < 256) :
    StdEncoding.DecodeString (StdEncoding.EncodeToString bs) = some bs :=
  decodeLoop_encodeBytes bs h

theorem encodeBytes_length (bs : List Nat) :
    (encodeBytes bs).length = 4 * ((bs.length + 2) / 3) := by
  induction bs using encodeBytes.induct with
  | case1 => rfl
  | case2 a => simp [encodeBytes]
  | case3 a b => simp [encodeBytes]
  | case4 a b c rest ih =>
    rw [encodeBytes]
    simp only [List.length_cons, ih]
    omega

theorem EncodeToString_length (bs : List Nat) :
    (StdEncoding.EncodeToString bs).length = 4 * ((bs.length + 2) / 3) := by
  rw [StdEncoding.EncodeToString, String.length_mk, encodeBytes_length]

theorem EncodeToString_injective (a b : List Nat) (ha : ∀ x ∈ a, x < 256)
    (hb : ∀ x ∈ b, x < 256) (h : StdEncoding.EncodeToString a = StdEncoding.EncodeToString b) :
    a = b := by
  have h1 := DecodeString_EncodeToString a ha
  rw [h, DecodeString_EncodeToString b hb] at h1
  exact (Option.some.inj h1).symm

end base64

end Encrypter
namespace Encrypter

/-! ## Lemmas on RSA -/

namespace rsa

/-- Fermat: for a prime `p` and an exponent that is 1 modulo `p - 1`, the
power is the identity modulo `p`. -/
theorem pow_modEq_self_of_prime (p m x : Nat) (hp : Nat.Prime p) (hx : x % (p - 1) = 1) :
    m ^ x ≡ m [MOD p] := by
  have hxe : x = (p - 1) * (x / (p - 1)) + 1 := by
    have := Nat.div_add_mod x (p - 1)
    omega
  by_cases hdiv : p ∣ m
  · have h0 : m ≡ 0 [MOD p] := (Nat.modEq_zero_iff_dvd).2 hdiv
    have hxpos : x ≠ 0 := by omega
    calc m ^ x ≡ 0 ^ x [MOD p] := h0.pow x
      _ = 0 := zero_pow hxpos
      _ ≡ m [MOD p] := h0.symm
  · have hcop : Nat.Coprime m p := ((Nat.Prime.coprime_iff_not_dvd hp).2 hdiv).symm
    have h1 : m ^ (p - 1) ≡ 1 [MOD p] := by
      have := Nat.ModEq.pow_totient hcop
      rwa [Nat.totient_prime hp] at this
    rw [hxe, pow_succ, pow_mul]
    calc (m ^ (p - 1)) ^ (x / (p - 1)) * m ≡ 1 ^ (x / (p - 1)) * m [MOD p] :=
        (h1.pow _).mul_right m
      _ = m := by simp

theorem modEq_prod_of_primes (l : List Nat) (a b : Nat) (hprime : ∀ p ∈ l, Nat.Prime p)
    (hnodup : l.Nodup) (h : ∀ p ∈ l, a ≡ b [MOD p]) : a ≡ b [MOD l.prod] := by
  induction l with
  | nil => simp [Nat.modEq_one]
  | cons p l ih =>
    rw [List.prod_cons]
    have hp := hprime p (List.mem_cons_self _ _)
    have hnd := List.nodup_cons.1 hnodup
    have hcop : Nat.Coprime p l.prod := by
      apply Nat.coprime_list_prod_right_iff.2
      intro q hq
      have hq' := hprime q (List.mem_cons_of_mem _ hq)
      rw [Nat.coprime_primes hp hq']
      rintro rfl
      exact hnd.1 hq
    refine (Nat.modEq_and_modEq_iff_modEq_mul hcop).1 ⟨h p (List.mem_cons_self _ _), ?_⟩
    exact ih (fun q hq => hprime q (List.mem_cons_of_mem _ hq)) hnd.2
      (fun q hq => h q (List.mem_cons_of_mem _ hq))

/-- Correctness of RSA: raising to the private exponent undoes raising to
the public one, for every residue. -/
theorem pow_pow_mod (N E D : Nat) (primes : List Nat) (hk : ValidKeyPair N E D primes)
    (m : Nat) (hm : m < N) : (m ^ E % N) ^ D % N = m := by
  have h1 : m ^ (E * D) ≡ m [MOD N] := by
    rw [hk.modulus]
    apply modEq_prod_of_primes primes _ _ hk.prime hk.nodup
    intro p hp
    exact pow_modEq_self_of_prime p m (E * D) (hk.prime p hp) (hk.exponents p hp)
  rw [← Nat.pow_mod, ← pow_mul]
  have := h1
  unfold Nat.ModEq at this
  rw [this, Nat.mod_eq_of_lt hm]

/-- Raising to the public exponent is injective on the residues. -/
theorem pow_mod_injective (N E D : Nat) (primes : List Nat) (hk : ValidKeyPair N E D primes)
    (a b : Nat) (ha : a < N) (hb : b < N) (h : a ^ E % N = b ^ E % N) : a = b := by
  rw [← pow_pow_mod N E D primes hk a ha, ← pow_pow_mod N E D primes hk b hb, h]

/-- The modulus of a valid key pair is odd. -/
theorem ValidKeyPair.odd {N E D : Nat} {primes : List Nat} (hk : ValidKeyPair N E D primes) :
    N % 2 = 1 := by
  rw [hk.modulus]
  have hprime := hk.prime
  have hexp := hk.exponents
  clear hk
  induction primes with
  | nil => simp
  | cons p l ih =>
    rw [List.prod_cons, Nat.mul_mod,
      ih (fun q hq => hprime q (List.mem_cons_of_mem _ hq))
        (fun q hq => hexp q (List.mem_cons_of_mem _ hq))]
    have hp := hprime p (List.mem_cons_self _ _)
    have he := hexp p (List.mem_cons_self _ _)
    have hp2 : p ≠ 2 := by
      rintro rfl
      omega
    rcases Nat.Prime.eq_two_or_odd hp with h2 | hodd
    · exact absurd h2 hp2
    · simp [hodd]

theorem ValidKeyPair.pos {N E D : Nat} {primes : List Nat} (hk : ValidKeyPair N E D primes) :
    0 < N := by
  have := hk.odd
  omega

end rsa

end Encrypter
namespace Encrypter

/-! ## Lemmas on the padding -/

theorem utf8EncodeChar_lt (c : Char) : ∀ b ∈ utf8EncodeChar c, b < 256 := by
  have hc : c.toNat < 1114112 := by
    have := c.valid
    simp only [Char.toNat]
    rcases this with h | h
    · have : c.val.toNat < 55296 := h
      omega
    · have : c.val.toNat < 1114112 := h.2
      omega
  intro b hb
  unfold utf8EncodeChar at hb
  simp only at hb
  split_ifs at hb <;> simp only [List.mem_cons, List.mem_singleton, List.not_mem_nil, or_false] at hb <;> omega

theorem stringBytes_lt (s : String) : ∀ b ∈ stringBytes s, b < 256 := by
  intro b hb
  simp only [stringBytes, List.mem_flatMap] at hb
  obtain ⟨c, _, hc⟩ := hb
  exact utf8EncodeChar_lt c b hc

namespace rsa

theorem redraw_spec (supply : List (Fin 256)) (b : Nat) (rest : List (Fin 256))
    (h : redraw supply = some (b, rest)) : b ≠ 0 ∧ b < 256 := by
  induction supply with
  | nil => simp [redraw] at h
  | cons r supply ih =>
    unfold redraw at h
    split_ifs at h with hz
    · simp only [Option.some.injEq, Prod.mk.injEq] at h
      obtain ⟨rfl, _⟩ := h
      refine ⟨hz, ?_⟩
      exact Nat.xor_lt_two_pow (n := 8) r.isLt (by norm_num)
    · exact ih h

theorem nonZeroLoop_spec (s : List Nat) (hs : ∀ b ∈ s, b < 256) (supply : List (Fin 256))
    (ps : List Nat) (rest : List (Fin 256)) (h : nonZeroLoop s supply = some (ps, rest)) :
    ps.length = s.length ∧ ∀ b ∈ ps, b ≠ 0 ∧ b < 256 := by
  induction s generalizing supply ps rest with
  | nil =>
    simp only [nonZeroLoop, Option.some.injEq, Prod.mk.injEq] at h
    obtain ⟨rfl, _⟩ := h
    simp
  | cons b s ih =>
    have hb : b < 256 := hs b (List.mem_cons_self _ _)
    have hs' : ∀ x ∈ s, x < 256 := fun x hx => hs x (List.mem_cons_of_mem _ hx)
    unfold nonZeroLoop at h
    split_ifs at h with hz
    · cases hrec : nonZeroLoop s supply with
      | none => simp [hrec] at h
      | some r =>
        obtain ⟨ps1, rest1⟩ := r
        simp only [hrec, Option.map_some', Option.some.injEq, Prod.mk.injEq] at h
        obtain ⟨rfl, _⟩ := h
        obtain ⟨hl, hall⟩ := ih hs' supply ps1 rest1 hrec
        refine ⟨by simp [hl], ?_⟩
        intro x hx
        rcases List.mem_cons.1 hx with rfl | hx
        · exact ⟨hz, hb⟩
        · exact hall x hx
    · cases hred : redraw supply with
      | none => simp [hred] at h
      | some r1 =>
        obtain ⟨b1, supply1⟩ := r1
        simp only [hred] at h
        cases hrec : nonZeroLoop s supply1 with
        | none => simp [hrec] at h
        | some r =>
          obtain ⟨ps1, rest1⟩ := r
          simp only [hrec, Option.map_some', Option.some.injEq, Prod.mk.injEq] at h
          obtain ⟨rfl, _⟩ := h
          obtain ⟨hl, hall⟩ := ih hs' supply1 ps1 rest1 hrec
          refine ⟨by simp [hl], ?_⟩
          intro x hx
          rcases List.mem_cons.1 hx with rfl | hx
          · exact redraw_spec supply _ supply1 hred
          · exact hall x hx

theorem nonZeroRandomBytes_spec (n : Nat) (supply : List (Fin 256)) (ps : List Nat)
    (rest : List (Fin 256)) (h : nonZeroRandomBytes n supply = some (ps, rest)) :
    ps.length = n ∧ ∀ b ∈ ps, b ≠ 0 ∧ b < 256 := by
  unfold nonZeroRandomBytes at h
  split_ifs at h with hlen
  have := nonZeroLoop_spec _ (by
    intro b hb
    simp only [List.mem_map] at hb
    obtain ⟨x, _, rfl⟩ := hb
    exact x.isLt) _ ps rest h
  refine ⟨?_, this.2⟩
  rw [this.1, List.length_map, List.length_take]
  omega

theorem unpad_padded (ps msg : List Nat) (hps : ∀ b ∈ ps, b ≠ 0) (hlen : 8 ≤ ps.length) :
    unpad (encodedMessage ps msg) = some msg := by
  have htw : List.takeWhile (fun b => decide (b ≠ 0)) (ps ++ 0 :: msg) = ps := by
    rw [List.takeWhile_append_of_pos]
    · simp
    · intro b hb
      simpa using hps b hb
  simp only [encodedMessage, List.cons_append, List.nil_append, List.singleton_append,
    List.append_assoc, unpad, htw]
  rw [if_neg]
  · simp
  · simp only [List.length_append, List.length_cons]
    omega

end rsa

end Encrypter
namespace Encrypter

/-! ## Lemmas on the encryption -/

namespace rsa

theorem encodedMessage_length (ps msg : List Nat) :
    (encodedMessage ps msg).length = ps.length + msg.length + 3 := by
  simp [encodedMessage]; omega

theorem encodedMessage_lt (ps msg : List Nat) (hps : ∀ b ∈ ps, b < 256)
    (hmsg : ∀ b ∈ msg, b < 256) : ∀ b ∈ encodedMessage ps msg, b < 256 := by
  intro b hb
  simp only [encodedMessage, List.cons_append, List.nil_append, List.singleton_append,
    List.append_assoc, List.mem_cons, List.mem_append] at hb
  rcases hb with rfl | rfl | hb | rfl | hb
  · omega
  · omega
  · exact hps b hb
  · omega
  · exact hmsg b hb

/-- The encoded message, as a number, is below every modulus of its size. -/
theorem bytesToNat_encodedMessage_lt (ps msg : List Nat) (hps : ∀ b ∈ ps, b < 256)
    (hmsg : ∀ b ∈ msg, b < 256) (N : Nat) (hN : N ≠ 0)
    (hk : ps.length + msg.length + 3 = (bitLen N + 7) / 8) :
    bytesToNat (encodedMessage ps msg) < N := by
  have htail : ∀ b ∈ ps ++ [0] ++ msg, b < 256 := by
    intro b hb
    simp only [List.append_assoc, List.singleton_append, List.mem_append, List.mem_cons] at hb
    rcases hb with hb | rfl | hb
    · exact hps b hb
    · omega
    · exact hmsg b hb
  have h1 := bytesToNat_lt _ htail
  have hlen : (ps ++ [0] ++ msg).length = ps.length + msg.length + 1 := by
    simp; omega
  have h2 := pow_byteLen_le N hN
  rw [← hk] at h2
  have h3 : ps.length + msg.length + 3 - 1 = (ps.length + msg.length + 1) + 1 := by omega
  rw [h3, pow_succ] at h2
  have he : encodedMessage ps msg = 0 :: 2 :: (ps ++ [0] ++ msg) := by
    simp [encodedMessage]
  rw [he, bytesToNat_cons, bytesToNat_cons, hlen]
  rw [hlen] at h1
  nlinarith

theorem padding_eq_some (random : RandReader) (n : Nat) (ps : List Nat)
    (h : random.padding n = some ps) :
    ∃ rest, nonZeroRandomBytes n (MaybeReadByte random) = some (ps, rest) := by
  unfold RandReader.padding at h
  cases hr : nonZeroRandomBytes n (MaybeReadByte random) with
  | none => simp [hr] at h
  | some r =>
    simp only [hr, Option.map_some', Option.some.injEq] at h
    exact ⟨r.2, by rw [← h]⟩

theorem padding_spec (random : RandReader) (n : Nat) (ps : List Nat)
    (h : random.padding n = some ps) : ps.length = n ∧ ∀ b ∈ ps, b ≠ 0 ∧ b < 256 := by
  obtain ⟨rest, hr⟩ := padding_eq_some random n ps h
  exact nonZeroRandomBytes_spec n _ ps rest hr

theorem supplies_iff_padding (random : RandReader) (n : Nat) :
    random.Supplies n ↔ ∃ ps, random.padding n = some ps := by
  unfold RandReader.Supplies RandReader.padding
  cases nonZeroRandomBytes n (MaybeReadByte random) <;> simp

/-- The result of `EncryptPKCS1v15` when nothing fails: the power of the
encoded message, on as many bytes as the modulus has. -/
theorem EncryptPKCS1v15_ok (random : RandReader) (pub : PublicKey) (msg ps : List Nat)
    (hodd : pub.N % 2 = 1) (hmin : 2 ≤ pub.E) (hmax : pub.E ≤ 2147483647)
    (hlen : msg.length + 11 ≤ pub.Size) (hmsg : ∀ b ∈ msg, b < 256)
    (hps : random.padding (pub.Size - msg.length - 3) = some ps) :
    EncryptPKCS1v15 random pub msg =
      .ok (natToBytes pub.Size (bytesToNat (encodedMessage ps msg) ^ pub.E % pub.N)) := by
  obtain ⟨rest, hr⟩ := padding_eq_some _ _ _ hps
  obtain ⟨hpl, hpb⟩ := padding_spec _ _ _ hps
  have hlt := bytesToNat_encodedMessage_lt ps msg (fun b hb => (hpb b hb).2) hmsg pub.N
    (by omega) (by unfold PublicKey.Size at hlen hpl; omega)
  unfold EncryptPKCS1v15
  have hcheck : checkPub pub = none := by
    unfold checkPub
    rw [if_neg (by omega), if_neg (by omega)]
  simp only [hcheck]
  rw [if_neg (by omega)]
  simp only [hr]
  unfold encrypt
  rw [if_neg (by omega), if_neg (by omega), modExp_eq]

/-- Decryption with the matching private exponent gives the message back. -/
theorem DecryptPKCS1v15_encrypted (N E D : Nat) (primes : List Nat)
    (hk : ValidKeyPair N E D primes) (ps msg : List Nat)
    (hps : ∀ b ∈ ps, b ≠ 0 ∧ b < 256) (hpl : 8 ≤ ps.length) (hmsg : ∀ b ∈ msg, b < 256)
    (hsize : ps.length + msg.length + 3 = (bitLen N + 7) / 8) :
    DecryptPKCS1v15 N D
      (natToBytes ((bitLen N + 7) / 8) (bytesToNat (encodedMessage ps msg) ^ E % N)) =
      some msg := by
  have hN : N ≠ 0 := by have := hk.pos; omega
  have hlt := bytesToNat_encodedMessage_lt ps msg (fun b hb => (hps b hb).2) hmsg N hN hsize
  have hc : bytesToNat (encodedMessage ps msg) ^ E % N < N := Nat.mod_lt _ hk.pos
  have hc2 : bytesToNat (encodedMessage ps msg) ^ E % N < 256 ^ ((bitLen N + 7) / 8) :=
    lt_trans hc (lt_pow_byteLen N)
  unfold DecryptPKCS1v15
  simp only [natToBytes_length, bytesToNat_natToBytes_of_lt _ _ hc2, modExp_eq]
  rw [if_neg (by omega), pow_pow_mod N E D primes hk _ hlt]
  have hem := natToBytes_bytesToNat (encodedMessage ps msg)
    (encodedMessage_lt ps msg (fun b hb => (hps b hb).2) hmsg)
  rw [encodedMessage_length, hsize] at hem
  rw [hem]
  exact unpad_padded ps msg (fun b hb => (hps b hb).1) hpl

end rsa

end Encrypter
namespace Encrypter

/-! ## Lemmas on the DER encoding -/

theorem bitLen_le_of_lt (n k : Nat) (h : n < 2 ^ k) : bitLen n ≤ k := by
  by_cases hn : n = 0
  · subst hn; simp [bitLen, bitLenAux]
  · have h1 := two_pow_bitLen_le n hn
    have h2 : 2 ^ (bitLen n - 1) < 2 ^ k := lt_of_le_of_lt h1 h
    have h3 := (Nat.pow_lt_pow_iff_right (by norm_num : 1 < 2)).1 h2
    have := bitLen_pos n hn
    omega

namespace der

theorem minimalBytes_length (n : Nat) : (minimalBytes n).length = (bitLen n + 7) / 8 :=
  natToBytes_length _ _

theorem minimalBytes_lt (n : Nat) : ∀ b ∈ minimalBytes n, b < 256 := natToBytes_lt _ _

theorem bytesToNat_minimalBytes (n : Nat) : bytesToNat (minimalBytes n) = n :=
  bytesToNat_natToBytes_of_lt _ _ (lt_pow_byteLen n)

theorem minimalBytes_zero : minimalBytes 0 = [] := by
  simp [minimalBytes, bitLen, bitLenAux, natToBytes]

/-- The first of the minimal bytes of a non-zero number is not zero. -/
theorem minimalBytes_cons (n : Nat) (h : n ≠ 0) :
    ∃ b tl, minimalBytes n = b :: tl ∧ b ≠ 0 ∧ b < 256 := by
  have hpos := bitLen_pos n h
  obtain ⟨k, hk⟩ : ∃ k, (bitLen n + 7) / 8 = k + 1 := ⟨(bitLen n + 7) / 8 - 1, by omega⟩
  have hle := pow_byteLen_le n h
  rw [hk, Nat.add_sub_cancel] at hle
  have hlt := lt_pow_byteLen n
  rw [hk, pow_succ] at hlt
  refine ⟨n / 256 ^ k % 256, natToBytes k n, ?_, ?_, Nat.mod_lt _ (by norm_num)⟩
  · rw [minimalBytes, hk, natToBytes_succ_cons]
  · have h1 : n / 256 ^ k < 256 := (Nat.div_lt_iff_lt_mul (by positivity)).2 (by rw [mul_comm]; exact hlt)
    have h2 : 0 < n / 256 ^ k := Nat.div_pos hle (by positivity)
    rw [Nat.mod_eq_of_lt h1]
    omega

theorem minimalBytes_length_le (n k : Nat) (h : n < 2 ^ (8 * k)) :
    (minimalBytes n).length ≤ k := by
  rw [minimalBytes_length]
  have := bitLen_le_of_lt n _ h
  omega

theorem encodeLength_lt (n : Nat) (h : n < 2147483648) : ∀ b ∈ encodeLength n, b < 256 := by
  intro b hb
  unfold encodeLength at hb
  split_ifs at hb with hs
  · simp only [List.mem_singleton] at hb; omega
  · rcases List.mem_cons.1 hb with rfl | hb
    · have := minimalBytes_length_le n 4 (by omega)
      omega
    · exact minimalBytes_lt n b hb

end der

namespace asn1

theorem parseLongLength_bytes (bs rest : List Nat) (acc : Nat)
    (hnz : acc = 0 → ∀ b tl, bs = b :: tl → b ≠ 0)
    (hlt : acc * 256 ^ bs.length + bytesToNat bs < 2147483648) :
    parseLongLength bs.length (bs ++ rest) acc =
      some (acc * 256 ^ bs.length + bytesToNat bs, rest) := by
  induction bs generalizing acc with
  | nil => simp [parseLongLength, bytesToNat]
  | cons b tl ih =>
    rw [bytesToNat_cons, List.length_cons, pow_succ] at hlt
    have hp : 0 < 256 ^ tl.length := by positivity
    have hacc : acc < 8388608 := by
      by_contra hge
      have : 8388608 * 256 ≤ acc * (256 ^ tl.length * 256) := by
        have : 8388608 ≤ acc := by omega
        nlinarith
      omega
    have hne : acc * 256 + b ≠ 0 := by
      by_cases h0 : acc = 0
      · have := hnz h0 b tl rfl
        omega
      · omega
    rw [List.length_cons, List.cons_append, parseLongLength, if_neg (by omega), if_neg hne,
      ih (acc * 256 + b) (fun h => absurd h hne) (by nlinarith)]
    rw [bytesToNat_cons, pow_succ]
    congr 2
    ring

/-- The header parser reads back a DER length below 2^31. -/
theorem parseTagAndLength_element (tag len : Nat) (rest : List Nat) (htag : tag % 32 ≠ 31)
    (hlen : len < 2147483648) :
    parseTagAndLength (tag :: (der.encodeLength len ++ rest)) =
      some (⟨tag / 64, tag % 32, tag / 32 % 2 = 1, len⟩, rest) := by
  unfold parseTagAndLength
  simp only [if_neg htag]
  unfold der.encodeLength
  by_cases hs : len < 128
  · simp [hs]
  · have hm := der.minimalBytes_length_le len 4 (by omega)
    obtain ⟨b, tl, hb, hb0, _⟩ := der.minimalBytes_cons len (by omega)
    have hm0 : 0 < (der.minimalBytes len).length := by rw [hb]; simp
    have hmod : (128 + (der.minimalBytes len).length) % 128 = (der.minimalBytes len).length := by
      omega
    have hpl := parseLongLength_bytes (der.minimalBytes len) rest 0
      (fun _ b' tl' h' => by rw [hb] at h'; cases h'; exact hb0)
      (by rw [der.bytesToNat_minimalBytes]; omega)
    rw [der.bytesToNat_minimalBytes] at hpl
    simp only [zero_mul, zero_add] at hpl
    simp only [if_neg hs, List.cons_append]
    rw [if_neg (by omega), hmod, if_neg (by omega), hpl]
    simp only [if_neg hs]

end asn1

namespace asn1

/-- A universal DER element of the expected tag is read whole. -/
theorem parseUniversal_element (tag : Nat) (content rest : List Nat) (compound : Bool)
    (hcls : tag / 64 = 0) (htag : tag % 32 ≠ 31) (hc : decide (tag / 32 % 2 = 1) = compound)
    (hlen : content.length < 2147483648) :
    parseUniversal (tag % 32) compound (der.element tag content ++ rest) =
      some (content, rest) := by
  unfold parseUniversal der.element
  rw [List.cons_append, List.append_assoc,
    parseTagAndLength_element tag content.length (content ++ rest) htag hlen]
  simp only [hcls, hc, ne_eq, not_true_eq_false, or_self, if_false, List.length_append]
  rw [if_neg (by omega)]
  simp

end asn1

namespace cryptobyte

/-- A DER element with a single-byte tag is read whole. -/
theorem readASN1_element (tag : Nat) (content rest : List Nat) (htag : tag % 32 ≠ 31)
    (hlen : content.length < 2147483648) :
    readASN1 (der.element tag content ++ rest) = some (tag, content, rest) := by
  unfold readASN1 der.element der.encodeLength
  by_cases hs : content.length < 128
  · simp only [hs, if_true, List.cons_append, List.nil_append, List.singleton_append,
      if_neg htag, List.length_append]
    rw [if_neg (by omega)]
    simp
  · have hm := der.minimalBytes_length_le content.length 4 (by omega)
    obtain ⟨b, tl, hb, hb0, hb256⟩ := der.minimalBytes_cons content.length (by omega)
    have hm0 : 0 < (der.minimalBytes content.length).length := by rw [hb]; simp
    have hmod : (128 + (der.minimalBytes content.length).length) % 128 =
        (der.minimalBytes content.length).length := by omega
    have hle := pow_byteLen_le content.length (by omega)
    rw [← der.minimalBytes_length] at hle
    simp only [if_neg hs, List.cons_append, if_neg htag, hmod, List.append_assoc]
    rw [if_neg (by omega), if_neg (by
      simp only [List.length_append, not_or, not_lt]
      omega)]
    simp only [List.take_left', List.drop_left', der.bytesToNat_minimalBytes]
    rw [if_neg (by omega), if_neg (Nat.ne_of_gt (Nat.div_pos hle (by positivity))),
      if_neg (by omega), if_neg (by simp)]

theorem ReadASN1_element (tag : Nat) (content rest : List Nat) (htag : tag % 32 ≠ 31)
    (hlen : content.length < 2147483648) :
    ReadASN1 (der.element tag content ++ rest) tag = some (content, rest) := by
  unfold ReadASN1
  rw [readASN1_element tag content rest htag hlen]
  simp

theorem checkASN1Integer_integerContent (n : Nat) :
    checkASN1Integer (der.integerContent n) = true := by
  unfold der.integerContent
  by_cases hn : n = 0
  · subst hn
    rw [der.minimalBytes_zero]
    rfl
  · obtain ⟨b, tl, hb, hb0, hb256⟩ := der.minimalBytes_cons n hn
    rw [hb]
    simp only
    split_ifs with h128
    · simp [checkASN1Integer]
      omega
    · cases tl with
      | nil => rfl
      | cons c tl =>
        simp [checkASN1Integer]
        omega

theorem signedValue_integerContent (n : Nat) : signedValue (der.integerContent n) = (n : Int) := by
  unfold der.integerContent
  by_cases hn : n = 0
  · subst hn
    rw [der.minimalBytes_zero]
    simp [signedValue, bytesToNat]
  · obtain ⟨b, tl, hb, hb0, hb256⟩ := der.minimalBytes_cons n hn
    have hv := der.bytesToNat_minimalBytes n
    rw [hb] at hv
    rw [hb]
    simp only
    split_ifs with h128
    · simp only [signedValue]
      rw [if_neg (by omega), bytesToNat_cons, hv]
      simp
    · simp only [signedValue]
      rw [if_neg h128, hv]

theorem integerContent_length_le (n k : Nat) (h : n < 2 ^ (8 * k)) :
    (der.integerContent n).length ≤ k + 1 := by
  have := der.minimalBytes_length_le n k h
  unfold der.integerContent
  split
  · simp
  · rename_i b rest hb
    rw [hb] at this
    split_ifs <;> simp only [List.length_cons] at * <;> omega

theorem ReadASN1Integer_integer (n : Nat) (rest : List Nat)
    (hlen : (der.integerContent n).length < 2147483648) :
    ReadASN1Integer (der.integer n ++ rest) = some ((n : Int), rest) := by
  unfold ReadASN1Integer der.integer
  rw [ReadASN1_element 2 _ rest (by norm_num) hlen]
  simp [checkASN1Integer_integerContent, signedValue_integerContent]

theorem ReadASN1Int64_integer (n : Nat) (rest : List Nat) (h : n < 2 ^ 56) :
    ReadASN1Int64 (der.integer n ++ rest) = some ((n : Int), rest) := by
  have hl := integerContent_length_le n 7 (by norm_num; omega)
  unfold ReadASN1Int64 der.integer
  rw [ReadASN1_element 2 _ rest (by norm_num) (by omega)]
  simp [checkASN1Integer_integerContent, signedValue_integerContent, hl]

end cryptobyte

end Encrypter
namespace Encrypter

/-! ## The fuel of the object identifier loops is enough -/

namespace asn1

theorem parseBase128Int_length (bytes : List Nat) (shifted ret v : Nat) (rest : List Nat)
    (h : parseBase128Int bytes shifted ret = some (v, rest)) : rest.length < bytes.length := by
  induction bytes generalizing shifted ret with
  | nil => simp [parseBase128Int] at h
  | cons b tl ih =>
    unfold parseBase128Int at h
    simp only at h
    split_ifs at h with h1 h2 h3 h4
    · simp only [Option.some.injEq, Prod.mk.injEq] at h
      rw [← h.2]
      simp
    · have := ih _ _ h
      simp only [List.length_cons]
      omega

/-- Any fuel that covers the bytes gives the same sub-identifiers. -/
theorem parseObjectIdentifierRest_fuel (fuel1 fuel2 : Nat) (bytes : List Nat)
    (h1 : bytes.length ≤ fuel1) (h2 : bytes.length ≤ fuel2) :
    parseObjectIdentifierRest fuel1 bytes = parseObjectIdentifierRest fuel2 bytes := by
  induction fuel1 generalizing fuel2 bytes with
  | zero =>
    have : bytes = [] := List.length_eq_zero.1 (by omega)
    subst this
    cases fuel2 <;> rfl
  | succ fuel1 ih =>
    cases bytes with
    | nil => cases fuel2 <;> rfl
    | cons b tl =>
      cases fuel2 with
      | zero => simp at h2
      | succ fuel2 =>
        simp only [parseObjectIdentifierRest]
        cases hp : parseBase128Int (b :: tl) 0 0 with
        | none => rfl
        | some r =>
          obtain ⟨v, rest1⟩ := r
          have hl := parseBase128Int_length _ _ _ _ _ hp
          simp only [List.length_cons] at hl h1 h2
          simp only
          rw [ih fuel2 rest1 (by omega) (by omega)]

end asn1

namespace cryptobyte

theorem readBase128Int_length (bytes : List Nat) (i ret v : Nat) (rest : List Nat)
    (h : readBase128Int bytes i ret = some (v, rest)) : rest.length < bytes.length := by
  induction bytes generalizing i ret with
  | nil => simp [readBase128Int] at h
  | cons b tl ih =>
    unfold readBase128Int at h
    split_ifs at h with h1 h2 h3 h4
    · simp only [Option.some.injEq, Prod.mk.injEq] at h
      rw [← h.2]
      simp
    · have := ih _ _ h
      simp only [List.length_cons]
      omega

/-- Any fuel that covers the bytes gives the same sub-identifiers. -/
theorem readObjectIdentifierRest_fuel (fuel1 fuel2 : Nat) (bytes : List Nat)
    (h1 : bytes.length ≤ fuel1) (h2 : bytes.length ≤ fuel2) :
    readObjectIdentifierRest fuel1 bytes = readObjectIdentifierRest fuel2 bytes := by
  induction fuel1 generalizing fuel2 bytes with
  | zero =>
    have : bytes = [] := List.length_eq_zero.1 (by omega)
    subst this
    cases fuel2 <;> rfl
  | succ fuel1 ih =>
    cases bytes with
    | nil => cases fuel2 <;> rfl
    | cons b tl =>
      cases fuel2 with
      | zero => simp at h2
      | succ fuel2 =>
        simp only [readObjectIdentifierRest]
        cases hp : readBase128Int (b :: tl) 0 0 with
        | none => rfl
        | some r =>
          obtain ⟨v, rest1⟩ := r
          have hl := readBase128Int_length _ _ _ _ _ hp
          simp only [List.length_cons] at hl h1 h2
          simp only
          rw [ih fuel2 rest1 (by omega) (by omega)]

end cryptobyte

end Encrypter
namespace Encrypter

/-! ## The parser reads the DER encoding of an RSA key back -/

namespace der

theorem length_lt_element (tag : Nat) (content : List Nat) :
    content.length < (element tag content).length := by
  simp [element]; omega

theorem rsaAlgorithm_eq :
    rsaAlgorithm = element 48 (element 6 [42, 134, 72, 134, 247, 13, 1, 1, 1] ++ [5, 0]) := by
  decide

end der

namespace x509

theorem parseAlgorithmIdentifier_rsa (rest : List Nat) :
    parseAlgorithmIdentifier (der.rsaAlgorithm ++ rest) =
      some (⟨oidPublicKeyRSA, ⟨[], [5, 0]⟩⟩, rest) := by
  have h1 := asn1.parseUniversal_element 48
    (der.element 6 [42, 134, 72, 134, 247, 13, 1, 1, 1] ++ [5, 0]) rest true
    (by norm_num) (by norm_num) (by decide) (by simp [der.element, der.encodeLength])
  have h2 := asn1.parseUniversal_element 6 [42, 134, 72, 134, 247, 13, 1, 1, 1] [5, 0] false
    (by norm_num) (by norm_num) (by decide) (by simp)
  have h3 : asn1.parseObjectIdentifier [42, 134, 72, 134, 247, 13, 1, 1, 1] =
      some oidPublicKeyRSA := by decide
  have h4 : asn1.parseOptionalRawValue [5, 0] = some (⟨[], [5, 0]⟩, []) := by decide
  norm_num at h1 h2
  unfold parseAlgorithmIdentifier
  rw [der.rsaAlgorithm_eq, h1]
  simp only [h2, h3, h4]

theorem parseRSA_marshal (pub : rsa.PublicKey) (hN : 0 < pub.N) (hE : 0 < pub.E)
    (hEmax : pub.E < 2 ^ 56) (hlen : (MarshalPKCS1PublicKey pub).length < 2147483648) :
    parseRSA ⟨[], [5, 0]⟩ (MarshalPKCS1PublicKey pub) = some (.rsa pub) := by
  unfold MarshalPKCS1PublicKey at hlen
  have hbody := der.length_lt_element 48 (der.integer pub.N ++ der.integer pub.E)
  have hcn : (der.integerContent pub.N).length < (der.integer pub.N).length :=
    der.length_lt_element 2 (der.integerContent pub.N)
  have h1 := cryptobyte.ReadASN1_element 48 (der.integer pub.N ++ der.integer pub.E) []
    (by norm_num) (by omega)
  have h2 := cryptobyte.ReadASN1Integer_integer pub.N (der.integer pub.E) (by
    have : (der.integer pub.N ++ der.integer pub.E).length =
        (der.integer pub.N).length + (der.integer pub.E).length := List.length_append _ _
    omega)
  have h3 := cryptobyte.ReadASN1Int64_integer pub.E [] hEmax
  rw [List.append_nil] at h1 h3
  unfold parseRSA MarshalPKCS1PublicKey
  simp only [ne_eq, not_true_eq_false, if_false, h1, h2, h3]
  rw [if_neg (by omega), if_neg (by omega)]
  simp

/-- The parser reads the DER encoding of an RSA public key back. -/
theorem ParsePKIXPublicKey_marshal (pub : rsa.PublicKey) (hN : 0 < pub.N) (hE : 0 < pub.E)
    (hEmax : pub.E < 2 ^ 56) (hlen : (MarshalPKIXPublicKey pub).length < 2147483648) :
    ParsePKIXPublicKey (MarshalPKIXPublicKey pub) = some (.rsa pub) := by
  unfold MarshalPKIXPublicKey at hlen
  have hbody := der.length_lt_element 48
    (der.rsaAlgorithm ++ der.element 3 (0 :: MarshalPKCS1PublicKey pub))
  have hbits := der.length_lt_element 3 (0 :: MarshalPKCS1PublicKey pub)
  have happ : (der.rsaAlgorithm ++ der.element 3 (0 :: MarshalPKCS1PublicKey pub)).length =
      der.rsaAlgorithm.length + (der.element 3 (0 :: MarshalPKCS1PublicKey pub)).length :=
    List.length_append _ _
  have hcons : (0 :: MarshalPKCS1PublicKey pub).length = (MarshalPKCS1PublicKey pub).length + 1 :=
    List.length_cons _ _
  have h1 := asn1.parseUniversal_element 48
    (der.rsaAlgorithm ++ der.element 3 (0 :: MarshalPKCS1PublicKey pub)) [] true
    (by norm_num) (by norm_num) (by decide) (by omega)
  have h2 := asn1.parseUniversal_element 3 (0 :: MarshalPKCS1PublicKey pub) [] false
    (by norm_num) (by norm_num) (by decide) (by omega)
  rw [List.append_nil] at h1 h2
  norm_num at h1 h2
  have h3 : asn1.parseBitString (0 :: MarshalPKCS1PublicKey pub) =
      some ⟨MarshalPKCS1PublicKey pub, (MarshalPKCS1PublicKey pub).length * 8⟩ := by
    simp [asn1.parseBitString, Nat.mod_one]
  have h4 : asn1.BitString.RightAlign
      ⟨MarshalPKCS1PublicKey pub, (MarshalPKCS1PublicKey pub).length * 8⟩ =
      MarshalPKCS1PublicKey pub := by
    simp [asn1.BitString.RightAlign]
  unfold ParsePKIXPublicKey unmarshalPublicKeyInfo MarshalPKIXPublicKey
  simp only [h1, parseAlgorithmIdentifier_rsa, h2, h3, List.length_nil, ne_eq,
    not_true_eq_false, if_false]
  unfold parsePublicKey
  simp only [h4, if_true]
  exact parseRSA_marshal pub hN hE hEmax (by omega)

end x509

end Encrypter
namespace Encrypter

/-! ## Lemmas on `EncryptAPIKey` -/

namespace der

theorem element_lt (tag : Nat) (content : List Nat) (htag : tag < 256)
    (hlen : content.length < 2147483648) (hc : ∀ b ∈ content, b < 256) :
    ∀ b ∈ element tag content, b < 256 := by
  intro b hb
  simp only [element, List.mem_cons, List.mem_append] at hb
  rcases hb with rfl | hb | hb
  · exact htag
  · exact encodeLength_lt _ hlen b hb
  · exact hc b hb

theorem integerContent_lt (n : Nat) : ∀ b ∈ integerContent n, b < 256 := by
  intro b hb
  unfold integerContent at hb
  split at hb
  · simp only [List.mem_singleton] at hb; omega
  · rename_i x rest hx
    have hall := minimalBytes_lt n
    rw [hx] at hall
    split_ifs at hb
    · rcases List.mem_cons.1 hb with rfl | hb
      · omega
      · exact hall b hb
    · exact hall b hb

end der

namespace x509

theorem MarshalPKIXPublicKey_lt (pub : rsa.PublicKey)
    (hlen : (MarshalPKIXPublicKey pub).length < 2147483648) :
    ∀ b ∈ MarshalPKIXPublicKey pub, b < 256 := by
  unfold MarshalPKIXPublicKey at hlen ⊢
  have hbody := der.length_lt_element 48
    (der.rsaAlgorithm ++ der.element 3 (0 :: MarshalPKCS1PublicKey pub))
  have hbits := der.length_lt_element 3 (0 :: MarshalPKCS1PublicKey pub)
  have happ : (der.rsaAlgorithm ++ der.element 3 (0 :: MarshalPKCS1PublicKey pub)).length =
      der.rsaAlgorithm.length + (der.element 3 (0 :: MarshalPKCS1PublicKey pub)).length :=
    List.length_append _ _
  have hcons : (0 :: MarshalPKCS1PublicKey pub).length = (MarshalPKCS1PublicKey pub).length + 1 :=
    List.length_cons _ _
  have hp : (MarshalPKCS1PublicKey pub).length =
      (der.element 48 (der.integer pub.N ++ der.integer pub.E)).length := rfl
  have hpb := der.length_lt_element 48 (der.integer pub.N ++ der.integer pub.E)
  have hie : (der.integer pub.N ++ der.integer pub.E).length =
      (der.integer pub.N).length + (der.integer pub.E).length := List.length_append _ _
  have hcn : (der.integerContent pub.N).length < (der.integer pub.N).length :=
    der.length_lt_element 2 _
  have hce : (der.integerContent pub.E).length < (der.integer pub.E).length :=
    der.length_lt_element 2 _
  apply der.element_lt 48 _ (by norm_num) (by omega)
  intro b hb
  rcases List.mem_append.1 hb with hb | hb
  · have : ∀ x ∈ der.rsaAlgorithm, x < 256 := by decide
    exact this b hb
  · refine der.element_lt 3 _ (by norm_num) (by omega) ?_ b hb
    intro c hc
    rcases List.mem_cons.1 hc with rfl | hc
    · omega
    · refine der.element_lt 48 _ (by norm_num) (by omega) ?_ c hc
      intro d hd
      rcases List.mem_append.1 hd with hd | hd
      · exact der.element_lt 2 _ (by norm_num) (by omega) (der.integerContent_lt _) d hd
      · exact der.element_lt 2 _ (by norm_num) (by omega) (der.integerContent_lt _) d hd

end x509

/-- The key string of the claims: the base64 of the DER encoding. -/
theorem EncryptAPIKey_marshal (random : rsa.RandReader) (pub : rsa.PublicKey) (apiKey : String)
    (hN : 0 < pub.N) (hE : 0 < pub.E) (hEmax : pub.E < 2 ^ 56)
    (hlen : (x509.MarshalPKIXPublicKey pub).length < 2147483648) :
    EncryptAPIKey random
        (base64.StdEncoding.EncodeToString (x509.MarshalPKIXPublicKey pub)) apiKey =
      match rsa.EncryptPKCS1v15 random pub (stringBytes apiKey) with
      | .error _ => ("", "Error encrypting access token")
      | .ok encryptedToken => (base64.StdEncoding.EncodeToString encryptedToken, "") := by
  unfold EncryptAPIKey
  rw [base64.DecodeString_EncodeToString _ (x509.MarshalPKIXPublicKey_lt pub hlen)]
  simp only [x509.ParsePKIXPublicKey_marshal pub hN hE hEmax hlen]

/-- The error text of `EncryptAPIKey` is one of four, or empty. -/
theorem EncryptAPIKey_error (random : rsa.RandReader) (envPublicKey apiKey : String) :
    (EncryptAPIKey random envPublicKey apiKey).2 = "" ∨
    ((EncryptAPIKey random envPublicKey apiKey).1 = "" ∧
      ((EncryptAPIKey random envPublicKey apiKey).2 = "Error decoding base64-encoded public key" ∨
      (EncryptAPIKey random envPublicKey apiKey).2 = "Error parsing public key" ∨
      (EncryptAPIKey random envPublicKey apiKey).2 = "Error converting to RSA public key" ∨
      (EncryptAPIKey random envPublicKey apiKey).2 = "Error encrypting access token")) := by
  unfold EncryptAPIKey
  split
  · simp
  · split
    · simp
    · split
      · split <;> simp
      · simp

end Encrypter
namespace Encrypter

/-! ## Lemmas on the handler and on the concrete keys -/

theorem lookupPublicKey_of_no_match (envs : List EnvironmentConfig) (name : String)
    (h : ∀ env ∈ envs, env.Name ≠ name) : lookupPublicKey envs name = "" := by
  induction envs with
  | nil => rfl
  | cons env rest ih =>
    rw [lookupPublicKey, if_neg (h env (List.mem_cons_self _ _))]
    exact ih (fun e he => h e (List.mem_cons_of_mem _ he))

theorem lookupPublicKey_of_first_match (pre post : List EnvironmentConfig)
    (env : EnvironmentConfig) (name : String) (hpre : ∀ e ∈ pre, e.Name ≠ name)
    (henv : env.Name = name) : lookupPublicKey (pre ++ env :: post) name = env.PublicKey := by
  induction pre with
  | nil => simp [lookupPublicKey, henv]
  | cons e rest ih =>
    rw [List.cons_append, lookupPublicKey, if_neg (hpre e (List.mem_cons_self _ _))]
    exact ih (fun x hx => hpre x (List.mem_cons_of_mem _ hx))

theorem fresh_Write (data : http.Body) :
    http.ResponseWriter.fresh.Write data = (⟨[], some 200, [data], false⟩, true) := rfl

theorem fresh_SetHeader_Write (key value : String) (data : http.Body) :
    (http.ResponseWriter.fresh.SetHeader key value).Write data =
      (⟨[(key, value)], some 200, [data], false⟩, true) := rfl

/-- The handler on a fresh response writer, by the key it finds. -/
theorem OpenAPIHandler_fresh (appConfig : AppConfig) (random : rsa.RandReader)
    (request : OpenAPIRequest) :
    OpenAPIHandler appConfig random .fresh (some request) =
      if lookupPublicKey appConfig.Environments request.Env = "" then
        ⟨⟨[], some 200, [.errorJSON ⟨"Invalid environment"⟩], false⟩, []⟩
      else if (EncryptAPIKey random (lookupPublicKey appConfig.Environments request.Env)
          request.APIKey).2 ≠ "" then
        ⟨⟨[], some 200, [.errorJSON ⟨(EncryptAPIKey random
            (lookupPublicKey appConfig.Environments request.Env) request.APIKey).2⟩], false⟩,
          [(lookupPublicKey appConfig.Environments request.Env, request.APIKey)]⟩
      else
        ⟨⟨[("Content-Type", "application/json")], some 200,
            [.responseJSON ⟨(EncryptAPIKey random
              (lookupPublicKey appConfig.Environments request.Env) request.APIKey).1⟩], false⟩,
          [(lookupPublicKey appConfig.Environments request.Env, request.APIKey)]⟩ := by
  unfold OpenAPIHandler
  simp only [fresh_Write, fresh_SetHeader_Write, if_true]

theorem EncryptAPIKey_error_ne_invalid (random : rsa.RandReader) (envPublicKey apiKey : String) :
    (EncryptAPIKey random envPublicKey apiKey).2 ≠ "Invalid environment" := by
  rcases EncryptAPIKey_error random envPublicKey apiKey with h | ⟨_, h | h | h | h⟩ <;>
    rw [h] <;> decide

theorem sampleKeyPair : rsa.ValidKeyPair sampleN sampleE sampleD samplePrimes where
  exponent_min := by decide
  exponent_max := by decide
  prime := by
    intro p hp
    simp only [samplePrimes, List.mem_cons, List.mem_singleton, List.not_mem_nil,
      or_false] at hp
    rcases hp with rfl | rfl | rfl | rfl | rfl <;> norm_num
  nodup := by decide
  modulus := by decide
  exponents := by decide

end Encrypter
namespace Encrypter

/-! ## The claims on `EncryptAPIKey` -/

open base64 in
/-- The success of one encryption under a valid key pair, with the padding
drawn: the result and its decryption. -/
theorem EncryptAPIKey_padding (N E D : Nat) (primes : List Nat) (random : rsa.RandReader)
    (apiKey : String) (ps : List Nat) (hkey : rsa.ValidKeyPair N E D primes)
    (hder : (x509.MarshalPKIXPublicKey ⟨N, E⟩).length < 2147483648)
    (hcap : (stringBytes apiKey).length + 11 ≤ rsa.PublicKey.Size ⟨N, E⟩)
    (hps : random.padding (rsa.PublicKey.Size ⟨N, E⟩ - (stringBytes apiKey).length - 3) =
      some ps) :
    EncryptAPIKey random (StdEncoding.EncodeToString (x509.MarshalPKIXPublicKey ⟨N, E⟩)) apiKey =
      (StdEncoding.EncodeToString (natToBytes (rsa.PublicKey.Size ⟨N, E⟩)
        (bytesToNat (rsa.encodedMessage ps (stringBytes apiKey)) ^ E % N)), "") ∧
    (StdEncoding.DecodeString (StdEncoding.EncodeToString (natToBytes (rsa.PublicKey.Size ⟨N, E⟩)
        (bytesToNat (rsa.encodedMessage ps (stringBytes apiKey)) ^ E % N)))).bind
      (rsa.DecryptPKCS1v15 N D) = some (stringBytes apiKey) := by
  have hEmin := hkey.exponent_min
  have hEmax := hkey.exponent_max
  obtain ⟨hpl, hpb⟩ := rsa.padding_spec _ _ _ hps
  simp only [rsa.PublicKey.Size] at hcap hpl hps ⊢
  constructor
  · rw [EncryptAPIKey_marshal random ⟨N, E⟩ apiKey hkey.pos (by simp only; omega)
      (by simp only; omega) hder,
      rsa.EncryptPKCS1v15_ok random ⟨N, E⟩ (stringBytes apiKey) ps hkey.odd hEmin hEmax
        hcap (stringBytes_lt apiKey) hps]
    rfl
  · rw [DecodeString_EncodeToString _ (natToBytes_lt _ _), Option.some_bind]
    exact rsa.DecryptPKCS1v15_encrypted N E D primes hkey ps (stringBytes apiKey) hpb
      (by omega) (stringBytes_lt apiKey) (by omega)

open base64 in
/-- C1: for every valid RSA key pair, every plaintext of at most the modulus
size less 11 bytes and every random source that delivers the padding,
`EncryptAPIKey` on the base64 of the DER encoding of the public key returns an
empty error and a string whose base64 decoding, decrypted with PKCS #1 v1.5
under the private exponent, is the plaintext. -/
theorem EncryptAPIKey_roundtrip (N E D : Nat) (primes : List Nat) (random : rsa.RandReader)
    (apiKey : String) (hkey : rsa.ValidKeyPair N E D primes)
    (hder : (x509.MarshalPKIXPublicKey ⟨N, E⟩).length < 2147483648)
    (hcap : (stringBytes apiKey).length + 11 ≤ rsa.PublicKey.Size ⟨N, E⟩)
    (hrand : random.Supplies (rsa.PublicKey.Size ⟨N, E⟩ - (stringBytes apiKey).length - 3)) :
    ∃ sessionKey,
      EncryptAPIKey random (StdEncoding.EncodeToString (x509.MarshalPKIXPublicKey ⟨N, E⟩))
        apiKey = (sessionKey, "") ∧
      (StdEncoding.DecodeString sessionKey).bind (rsa.DecryptPKCS1v15 N D) =
        some (stringBytes apiKey) := by
  obtain ⟨ps, hps⟩ := (rsa.supplies_iff_padding _ _).1 hrand
  exact ⟨_, EncryptAPIKey_padding N E D primes random apiKey ps hkey hder hcap hps⟩

set_option maxRecDepth 1000000 in
open base64 in
/-- C1 at the small key pair, the plaintext `key!` and a random source with a
zero byte. -/
theorem EncryptAPIKey_roundtrip_witness :
    ∃ sessionKey,
      EncryptAPIKey sampleRandom
        (StdEncoding.EncodeToString (x509.MarshalPKIXPublicKey ⟨sampleN, sampleE⟩)) "key!" =
          (sessionKey, "") ∧
      (StdEncoding.DecodeString sessionKey).bind (rsa.DecryptPKCS1v15 sampleN sampleD) =
        some (stringBytes "key!") :=
  EncryptAPIKey_roundtrip sampleN sampleE sampleD samplePrimes sampleRandom "key!" sampleKeyPair
    (by decide) (by decide) (by decide)

end Encrypter
namespace Encrypter

theorem encodedMessage_injective (ps1 ps2 msg : List Nat)
    (h : rsa.encodedMessage ps1 msg = rsa.encodedMessage ps2 msg) : ps1 = ps2 := by
  simp only [rsa.encodedMessage, List.cons_append, List.nil_append, List.append_assoc,
    List.cons.injEq, true_and] at h
  exact List.append_cancel_right h

open base64 in
/-- C9: for a fixed valid key pair and a fixed plaintext within capacity, two
calls whose padding strings differ both succeed with an empty error, return
different ciphertext strings, and both strings decrypt under the private
exponent to the plaintext. -/
theorem EncryptAPIKey_padding_draws (N E D : Nat) (primes : List Nat)
    (random1 random2 : rsa.RandReader) (apiKey : String) (ps1 ps2 : List Nat)
    (hkey : rsa.ValidKeyPair N E D primes)
    (hder : (x509.MarshalPKIXPublicKey ⟨N, E⟩).length < 2147483648)
    (hcap : (stringBytes apiKey).length + 11 ≤ rsa.PublicKey.Size ⟨N, E⟩)
    (h1 : random1.padding (rsa.PublicKey.Size ⟨N, E⟩ - (stringBytes apiKey).length - 3) =
      some ps1)
    (h2 : random2.padding (rsa.PublicKey.Size ⟨N, E⟩ - (stringBytes apiKey).length - 3) =
      some ps2)
    (hne : ps1 ≠ ps2) :
    ∃ sessionKey1 sessionKey2,
      EncryptAPIKey random1 (StdEncoding.EncodeToString (x509.MarshalPKIXPublicKey ⟨N, E⟩))
        apiKey = (sessionKey1, "") ∧
      EncryptAPIKey random2 (StdEncoding.EncodeToString (x509.MarshalPKIXPublicKey ⟨N, E⟩))
        apiKey = (sessionKey2, "") ∧
      sessionKey1 ≠ sessionKey2 ∧
      (StdEncoding.DecodeString sessionKey1).bind (rsa.DecryptPKCS1v15 N D) =
        some (stringBytes apiKey) ∧
      (StdEncoding.DecodeString sessionKey2).bind (rsa.DecryptPKCS1v15 N D) =
        some (stringBytes apiKey) := by
  obtain ⟨he1, hd1⟩ := EncryptAPIKey_padding N E D primes random1 apiKey ps1 hkey hder hcap h1
  obtain ⟨he2, hd2⟩ := EncryptAPIKey_padding N E D primes random2 apiKey ps2 hkey hder hcap h2
  refine ⟨_, _, he1, he2, ?_, hd1, hd2⟩
  intro heq
  apply hne
  obtain ⟨hpl1, hpb1⟩ := rsa.padding_spec _ _ _ h1
  obtain ⟨hpl2, hpb2⟩ := rsa.padding_spec _ _ _ h2
  simp only [rsa.PublicKey.Size] at hcap hpl1 hpl2 heq
  have hN : N ≠ 0 := by have := hkey.pos; omega
  have hlt1 := rsa.bytesToNat_encodedMessage_lt ps1 (stringBytes apiKey)
    (fun b hb => (hpb1 b hb).2) (stringBytes_lt apiKey) N hN (by omega)
  have hlt2 := rsa.bytesToNat_encodedMessage_lt ps2 (stringBytes apiKey)
    (fun b hb => (hpb2 b hb).2) (stringBytes_lt apiKey) N hN (by omega)
  have hbytes := EncodeToString_injective _ _ (natToBytes_lt _ _) (natToBytes_lt _ _) heq
  have hval := congrArg bytesToNat hbytes
  rw [bytesToNat_natToBytes_of_lt _ _ (lt_trans (Nat.mod_lt _ hkey.pos) (lt_pow_byteLen N)),
    bytesToNat_natToBytes_of_lt _ _ (lt_trans (Nat.mod_lt _ hkey.pos) (lt_pow_byteLen N))]
    at hval
  have hem := rsa.pow_mod_injective N E D primes hkey _ _ hlt1 hlt2 hval
  have hlist := congrArg (natToBytes ((bitLen N + 7) / 8)) hem
  have hn1 := natToBytes_bytesToNat (rsa.encodedMessage ps1 (stringBytes apiKey))
    (rsa.encodedMessage_lt ps1 _ (fun b hb => (hpb1 b hb).2) (stringBytes_lt apiKey))
  have hn2 := natToBytes_bytesToNat (rsa.encodedMessage ps2 (stringBytes apiKey))
    (rsa.encodedMessage_lt ps2 _ (fun b hb => (hpb2 b hb).2) (stringBytes_lt apiKey))
  rw [rsa.encodedMessage_length] at hn1 hn2
  have hk1 : ps1.length + (stringBytes apiKey).length + 3 = (bitLen N + 7) / 8 := by omega
  have hk2 : ps2.length + (stringBytes apiKey).length + 3 = (bitLen N + 7) / 8 := by omega
  rw [hk1] at hn1
  rw [hk2] at hn2
  rw [hn1, hn2] at hlist
  exact encodedMessage_injective ps1 ps2 _ hlist

set_option maxRecDepth 1000000 in
open base64 in
/-- C9 at the small key pair, the plaintext `key!` and two random sources
whose padding strings differ in the first byte. -/
theorem EncryptAPIKey_padding_draws_witness :
    ∃ sessionKey1 sessionKey2,
      EncryptAPIKey sampleRandom
        (StdEncoding.EncodeToString (x509.MarshalPKIXPublicKey ⟨sampleN, sampleE⟩)) "key!" =
          (sessionKey1, "") ∧
      EncryptAPIKey sampleRandom2
        (StdEncoding.EncodeToString (x509.MarshalPKIXPublicKey ⟨sampleN, sampleE⟩)) "key!" =
          (sessionKey2, "") ∧
      sessionKey1 ≠ sessionKey2 ∧
      (StdEncoding.DecodeString sessionKey1).bind (rsa.DecryptPKCS1v15 sampleN sampleD) =
        some (stringBytes "key!") ∧
      (StdEncoding.DecodeString sessionKey2).bind (rsa.DecryptPKCS1v15 sampleN sampleD) =
        some (stringBytes "key!") :=
  EncryptAPIKey_padding_draws sampleN sampleE sampleD samplePrimes sampleRandom sampleRandom2
    "key!" [17, 69, 66, 200, 3, 4, 5, 6] [18, 9, 66, 200, 3, 4, 5, 6] sampleKeyPair
    (by decide) (by decide) (by decide) (by decide) (by decide)

open base64 in
/-- C10: for every RSA public key that `EncryptPKCS1v15` takes (odd modulus,
exponent from 2 to 2^31 - 1) with a modulus of `k` bytes and every plaintext
within capacity, the success value of `EncryptAPIKey` is the padded base64 of
exactly `k` bytes, of `4 * ceil(k / 3)` characters; 344 for `k = 256`. -/
theorem EncryptAPIKey_length (pub : rsa.PublicKey) (random : rsa.RandReader) (apiKey : String)
    (hodd : pub.N % 2 = 1) (hmin : 2 ≤ pub.E) (hmax : pub.E ≤ 2147483647)
    (hder : (x509.MarshalPKIXPublicKey pub).length < 2147483648)
    (hcap : (stringBytes apiKey).length + 11 ≤ pub.Size)
    (hrand : random.Supplies (pub.Size - (stringBytes apiKey).length - 3)) :
    ∃ encryptedToken,
      EncryptAPIKey random (StdEncoding.EncodeToString (x509.MarshalPKIXPublicKey pub)) apiKey =
        (StdEncoding.EncodeToString encryptedToken, "") ∧
      encryptedToken.length = pub.Size ∧ (∀ b ∈ encryptedToken, b < 256) ∧
      (StdEncoding.EncodeToString encryptedToken).length = 4 * ((pub.Size + 2) / 3) ∧
      (pub.Size = 256 → (StdEncoding.EncodeToString encryptedToken).length = 344) := by
  obtain ⟨ps, hps⟩ := (rsa.supplies_iff_padding _ _).1 hrand
  refine ⟨natToBytes pub.Size (bytesToNat (rsa.encodedMessage ps (stringBytes apiKey)) ^ pub.E %
    pub.N), ?_, natToBytes_length _ _, natToBytes_lt _ _, ?_, ?_⟩
  · rw [EncryptAPIKey_marshal random pub apiKey (by omega) (by omega) (by omega) hder,
      rsa.EncryptPKCS1v15_ok random pub (stringBytes apiKey) ps hodd hmin hmax hcap
        (stringBytes_lt apiKey) hps]
  · rw [EncodeToString_length, natToBytes_length]
  · intro hk
    rw [EncodeToString_length, natToBytes_length, hk]

end Encrypter
namespace Encrypter

theorem bitLen_eq_of_bounds (n k : Nat) (hlo : 2 ^ k ≤ n) (hhi : n < 2 ^ (k + 1)) :
    bitLen n = k + 1 := by
  have h1 := bitLen_le_of_lt n (k + 1) hhi
  have h2 : 2 ^ k < 2 ^ bitLen n := lt_of_le_of_lt hlo (lt_two_pow_bitLen n)
  have h3 := (Nat.pow_lt_pow_iff_right (by norm_num : 1 < 2)).1 h2
  omega

set_option exponentiation.threshold 4096 in
theorem bitLen_rsa2048N : bitLen rsa2048N = 2048 :=
  bitLen_eq_of_bounds rsa2048N 2047 (by decide) (by decide)

theorem rsa2048PublicKey_Size : rsa2048PublicKey.Size = 256 := by
  simp only [rsa.PublicKey.Size, rsa2048PublicKey, bitLen_rsa2048N]

set_option maxRecDepth 1000000 in
theorem longRandom_supplies :
    longRandom.Supplies (rsa2048PublicKey.Size - (stringBytes "secret123").length - 3) := by
  rw [rsa2048PublicKey_Size]; decide

set_option maxRecDepth 1000000 in
theorem secret123_fits : (stringBytes "secret123").length + 11 ≤ rsa2048PublicKey.Size := by
  rw [rsa2048PublicKey_Size]; decide

set_option maxRecDepth 1000000 in
theorem MarshalPKIXPublicKey_rsa2048 : x509.MarshalPKIXPublicKey rsa2048PublicKey =
    der.element 48 (der.rsaAlgorithm ++ der.element 3 (0 :: der.element 48
      (der.element 2 (0 :: natToBytes 256 rsa2048N) ++ der.element 2 [1, 0, 1]))) := by
  have hN : der.integerContent rsa2048N = 0 :: natToBytes 256 rsa2048N := by
    have h1 : der.minimalBytes rsa2048N = natToBytes 256 rsa2048N := by
      simp only [der.minimalBytes, bitLen_rsa2048N]
    have h2 : natToBytes 256 rsa2048N =
        (rsa2048N / 256 ^ 255 % 256) :: natToBytes 255 rsa2048N :=
      natToBytes_succ_cons 255 rsa2048N
    have h3 : rsa2048N / 256 ^ 255 % 256 ≥ 128 := by decide
    rw [der.integerContent, h1, h2]
    simp only [h3, if_true]
  have hE : der.integerContent 65537 = [1, 0, 1] := by decide
  simp only [x509.MarshalPKIXPublicKey, x509.MarshalPKCS1PublicKey, der.integer, rsa2048PublicKey,
    hN, hE]

set_option maxRecDepth 1000000 in
open base64 in
/-- C10 at the 2048-bit key made with OpenSSL and the plaintext `secret123`:
the key string is the one OpenSSL wrote, and the result has 344 characters. -/
theorem EncryptAPIKey_length_witness :
    StdEncoding.EncodeToString (x509.MarshalPKIXPublicKey rsa2048PublicKey) = rsa2048Key ∧
    rsa2048PublicKey.Size = 256 ∧
    ∃ encryptedToken,
      EncryptAPIKey longRandom
        (StdEncoding.EncodeToString (x509.MarshalPKIXPublicKey rsa2048PublicKey)) "secret123" =
        (StdEncoding.EncodeToString encryptedToken, "") ∧
      encryptedToken.length = rsa2048PublicKey.Size ∧ (∀ b ∈ encryptedToken, b < 256) ∧
      (StdEncoding.EncodeToString encryptedToken).length =
        4 * ((rsa2048PublicKey.Size + 2) / 3) ∧
      (rsa2048PublicKey.Size = 256 → (StdEncoding.EncodeToString encryptedToken).length = 344) :=
  ⟨by rw [MarshalPKIXPublicKey_rsa2048]; decide, rsa2048PublicKey_Size,
    EncryptAPIKey_length rsa2048PublicKey longRandom "secret123" (by decide) (by decide)
      (by decide) (by rw [MarshalPKIXPublicKey_rsa2048]; decide) secret123_fits
      longRandom_supplies⟩


end Encrypter
namespace Encrypter

open base64 in
/-- C4: for every public key string that `StdEncoding` does not decode and
every plaintext, `EncryptAPIKey` returns the empty result with the error
`Error decoding base64-encoded public key`, whatever the random source. -/
theorem EncryptAPIKey_decode_error (random : rsa.RandReader) (envPublicKey apiKey : String)
    (h : StdEncoding.DecodeString envPublicKey = none) :
    EncryptAPIKey random envPublicKey apiKey =
      ("", "Error decoding base64-encoded public key") := by
  unfold EncryptAPIKey
  rw [h]

set_option maxRecDepth 1000000 in
/-- C4 at the key string `not base64!`, for the empty plaintext, and at a
base64 string without its padding, for a plaintext of 300 bytes. -/
theorem EncryptAPIKey_decode_error_witness :
    EncryptAPIKey emptyRandom "not base64!" "" =
      ("", "Error decoding base64-encoded public key") ∧
    EncryptAPIKey sampleRandom "MCowDQYJKoZIhvcNAQEBBQADGQAwFgIPHb6MiD7wWfkiPkFmXaz5AgMBAAE"
      (String.mk (List.replicate 300 'a')) = ("", "Error decoding base64-encoded public key") :=
  ⟨EncryptAPIKey_decode_error emptyRandom "not base64!" "" (by decide),
    EncryptAPIKey_decode_error sampleRandom _ _ (by decide)⟩

open base64 in
/-- C5: for every public key string that decodes and whose bytes parse as a
public key that is not an RSA key, and for every plaintext, `EncryptAPIKey`
returns the empty result with the error `Error converting to RSA public key`. -/
theorem EncryptAPIKey_key_type_error (random : rsa.RandReader) (envPublicKey apiKey : String)
    (publicKeyBytes : List Nat) (publicKey : x509.PublicKey)
    (hdecode : StdEncoding.DecodeString envPublicKey = some publicKeyBytes)
    (hparse : x509.ParsePKIXPublicKey publicKeyBytes = some publicKey)
    (hkind : ∀ pub, publicKey ≠ .rsa pub) :
    EncryptAPIKey random envPublicKey apiKey = ("", "Error converting to RSA public key") := by
  unfold EncryptAPIKey
  rw [hdecode]
  simp only [hparse]

/-- The bytes of the Ed25519 key. -/
theorem ed25519Key_decoded :
    base64.StdEncoding.DecodeString ed25519Key = some
      [48, 42, 48, 5, 6, 3, 43, 101, 112, 3, 33, 0, 150, 211, 162, 163, 173, 48, 138, 110, 181,
        77, 166, 38, 195, 18, 59, 59, 77, 199, 232, 36, 61, 46, 118, 169, 81, 91, 129, 125, 57,
        252, 231, 176] := by
  decide

/-- The bytes of the ECDSA key. -/
theorem ecdsaKey_decoded :
    base64.StdEncoding.DecodeString ecdsaKey = some
      [48, 89, 48, 19, 6, 7, 42, 134, 72, 206, 61, 2, 1, 6, 8, 42, 134, 72, 206, 61, 3, 1, 7,
        3, 66, 0, 4, 166, 15, 59, 252, 117, 176, 250, 184, 208, 54, 58, 28, 52, 230, 139, 86,
        116, 166, 132, 109, 2, 134, 82, 73, 221, 247, 22, 113, 177, 89, 211, 199, 162, 61, 57,
        36, 138, 188, 103, 1, 27, 143, 147, 211, 128, 13, 238, 223, 83, 187, 70, 207, 238, 240,
        136, 255, 68, 247, 178, 238, 67, 199, 110, 175] := by
  decide

set_option maxRecDepth 1000000 in
/-- C5 at an Ed25519 key and at an ECDSA key on P-256, both made with
OpenSSL. -/
theorem EncryptAPIKey_key_type_error_witness :
    EncryptAPIKey sampleRandom ed25519Key "key!" = ("", "Error converting to RSA public key") ∧
    EncryptAPIKey sampleRandom ecdsaKey "key!" = ("", "Error converting to RSA public key") :=
  ⟨EncryptAPIKey_key_type_error sampleRandom ed25519Key "key!" _
      (.ed25519 [150, 211, 162, 163, 173, 48, 138, 110, 181, 77, 166, 38, 195, 18, 59, 59, 77,
        199, 232, 36, 61, 46, 118, 169, 81, 91, 129, 125, 57, 252, 231, 176])
      ed25519Key_decoded (by decide) (by intro pub h; cases h),
    EncryptAPIKey_key_type_error sampleRandom ecdsaKey "key!" _
      (.ecdsa elliptic.P256
        75110849580129260220486694003047725478652029825210794668091736388559829586887
        73382853526151083926168450408019436517791265833026552780368817671288339787439)
      ecdsaKey_decoded (by decide) (by intro pub h; cases h)⟩

end Encrypter
namespace Encrypter

set_option maxRecDepth 1000000 in
/-- C3 fails on the code.  Under the small key (117 bits, 15 bytes) the
plaintext `key!!` is too long and the primitive says so, while `key!` with a
dry random source fails on the read; `EncryptAPIKey` returns the same error
value for both.  And `key!`, 4 bytes, is longer than 117 / 8 - 11 = 3 and is
encrypted all the same. -/
theorem EncryptAPIKey_too_long_not_distinguished :
    rsa.EncryptPKCS1v15 sampleRandom samplePublicKey (stringBytes "key!!") =
      .error .ErrMessageTooLong ∧
    rsa.EncryptPKCS1v15 emptyRandom samplePublicKey (stringBytes "key!") =
      .error .readError ∧
    EncryptAPIKey sampleRandom sampleKey "key!!" = ("", "Error encrypting access token") ∧
    EncryptAPIKey emptyRandom sampleKey "key!" = ("", "Error encrypting access token") ∧
    bitLen sampleN / 8 - 11 < (stringBytes "key!").length ∧
    EncryptAPIKey sampleRandom sampleKey "key!" = ("FXkzK4xVpN+1t98eZZ9x", "") := by
  decide

open base64 in
/-- C3 as amended: for every key string that decodes and parses as an RSA
public key and every plaintext of more than `k - 11` bytes, `k` the size of
the modulus in bytes, `EncryptAPIKey` returns the empty result with the error
`Error encrypting access token`; the primitive reports `ErrMessageTooLong`
when the exponent passes `checkPub`; and every other error of the primitive
gives the same result of `EncryptAPIKey`. -/
theorem EncryptAPIKey_too_long (random : rsa.RandReader) (envPublicKey apiKey : String)
    (publicKeyBytes : List Nat) (pub : rsa.PublicKey)
    (hdecode : StdEncoding.DecodeString envPublicKey = some publicKeyBytes)
    (hparse : x509.ParsePKIXPublicKey publicKeyBytes = some (.rsa pub))
    (hlong : pub.Size < (stringBytes apiKey).length + 11) :
    EncryptAPIKey random envPublicKey apiKey = ("", "Error encrypting access token") ∧
    (rsa.checkPub pub = none →
      rsa.EncryptPKCS1v15 random pub (stringBytes apiKey) = .error .ErrMessageTooLong) ∧
    ∀ (random2 : rsa.RandReader) (apiKey2 : String) (err : rsa.Error),
      rsa.EncryptPKCS1v15 random2 pub (stringBytes apiKey2) = .error err →
      EncryptAPIKey random2 envPublicKey apiKey2 = ("", "Error encrypting access token") := by
  have hall : ∀ (random2 : rsa.RandReader) (apiKey2 : String) (err : rsa.Error),
      rsa.EncryptPKCS1v15 random2 pub (stringBytes apiKey2) = .error err →
      EncryptAPIKey random2 envPublicKey apiKey2 = ("", "Error encrypting access token") := by
    intro random2 apiKey2 err herr
    unfold EncryptAPIKey
    rw [hdecode]
    simp only [hparse, herr]
  have herr : ∃ err, rsa.EncryptPKCS1v15 random pub (stringBytes apiKey) = .error err := by
    unfold rsa.EncryptPKCS1v15
    cases hc : rsa.checkPub pub with
    | some e => exact ⟨e, rfl⟩
    | none => exact ⟨.ErrMessageTooLong, by simp only [if_pos hlong]⟩
  refine ⟨?_, ?_, hall⟩
  · obtain ⟨err, he⟩ := herr
    exact hall random apiKey err he
  · intro hc
    unfold rsa.EncryptPKCS1v15
    simp only [hc, if_pos hlong]

set_option maxRecDepth 1000000 in
/-- C3 as amended, at the small key and the plaintext `key!!`. -/
theorem EncryptAPIKey_too_long_witness :
    EncryptAPIKey sampleRandom sampleKey "key!!" = ("", "Error encrypting access token") ∧
    (rsa.checkPub samplePublicKey = none →
      rsa.EncryptPKCS1v15 sampleRandom samplePublicKey (stringBytes "key!!") =
        .error .ErrMessageTooLong) ∧
    ∀ (random2 : rsa.RandReader) (apiKey2 : String) (err : rsa.Error),
      rsa.EncryptPKCS1v15 random2 samplePublicKey (stringBytes apiKey2) = .error err →
      EncryptAPIKey random2 sampleKey apiKey2 = ("", "Error encrypting access token") :=
  EncryptAPIKey_too_long sampleRandom sampleKey "key!!"
    [48, 42, 48, 13, 6, 9, 42, 134, 72, 134, 247, 13, 1, 1, 1, 5, 0, 3, 25, 0, 48, 22, 2, 15,
      29, 190, 140, 136, 62, 240, 89, 249, 34, 62, 65, 102, 93, 172, 249, 2, 3, 1, 0, 1]
    samplePublicKey (by decide) (by decide) (by decide)

/-! ## The claims on `OpenAPIHandler` -/

/-- C2: for every registry and every request whose environment name is the
name of no entry, for every API key, the handler finds no key, writes the
JSON error `Invalid environment` and does not call `EncryptAPIKey`. -/
theorem OpenAPIHandler_unknown_environment (appConfig : AppConfig) (random : rsa.RandReader)
    (request : OpenAPIRequest)
    (h : ∀ env ∈ appConfig.Environments, env.Name ≠ request.Env) :
    lookupPublicKey appConfig.Environments request.Env = "" ∧
    (OpenAPIHandler appConfig random .fresh (some request)).w.body =
      [.errorJSON ⟨"Invalid environment"⟩] ∧
    (OpenAPIHandler appConfig random .fresh (some request)).calls = [] := by
  have hk := lookupPublicKey_of_no_match _ _ h
  rw [OpenAPIHandler_fresh, if_pos hk]
  exact ⟨hk, rfl, rfl⟩

set_option maxRecDepth 1000000 in
/-- C2 at a registry that holds `prod` and the request for `staging`. -/
theorem OpenAPIHandler_unknown_environment_witness :
    lookupPublicKey [⟨"prod", sampleKey⟩] "staging" = "" ∧
    (OpenAPIHandler ⟨[⟨"prod", sampleKey⟩]⟩ sampleRandom .fresh
      (some ⟨"staging", "x"⟩)).w.body = [.errorJSON ⟨"Invalid environment"⟩] ∧
    (OpenAPIHandler ⟨[⟨"prod", sampleKey⟩]⟩ sampleRandom .fresh
      (some ⟨"staging", "x"⟩)).calls = [] :=
  OpenAPIHandler_unknown_environment ⟨[⟨"prod", sampleKey⟩]⟩ sampleRandom ⟨"staging", "x"⟩
    (by decide)

/-- C6: for every registry and request for which a key that is not empty is
found, the handler calls `EncryptAPIKey` once on that key and the API key; its
response is the JSON `sessionKey` of the result exactly when the error of
`EncryptAPIKey` is empty, and otherwise the JSON `error` of that error. -/
theorem OpenAPIHandler_orchestration (appConfig : AppConfig) (random : rsa.RandReader)
    (request : OpenAPIRequest)
    (hkey : lookupPublicKey appConfig.Environments request.Env ≠ "") :
    (OpenAPIHandler appConfig random .fresh (some request)).calls =
      [(lookupPublicKey appConfig.Environments request.Env, request.APIKey)] ∧
    ((EncryptAPIKey random (lookupPublicKey appConfig.Environments request.Env)
        request.APIKey).2 = "" →
      (OpenAPIHandler appConfig random .fresh (some request)).w.body =
        [.responseJSON ⟨(EncryptAPIKey random
          (lookupPublicKey appConfig.Environments request.Env) request.APIKey).1⟩]) ∧
    ((EncryptAPIKey random (lookupPublicKey appConfig.Environments request.Env)
        request.APIKey).2 ≠ "" →
      (OpenAPIHandler appConfig random .fresh (some request)).w.body =
        [.errorJSON ⟨(EncryptAPIKey random
          (lookupPublicKey appConfig.Environments request.Env) request.APIKey).2⟩]) ∧
    ((∃ sessionKey, (OpenAPIHandler appConfig random .fresh (some request)).w.body =
        [.responseJSON ⟨sessionKey⟩]) ↔
      (EncryptAPIKey random (lookupPublicKey appConfig.Environments request.Env)
        request.APIKey).2 = "") := by
  rw [OpenAPIHandler_fresh, if_neg hkey]
  by_cases herr : (EncryptAPIKey random (lookupPublicKey appConfig.Environments request.Env)
      request.APIKey).2 = ""
  · rw [if_neg (not_not.2 herr)]
    exact ⟨rfl, fun _ => rfl, fun h => absurd herr h, fun _ => herr, fun _ => ⟨_, rfl⟩⟩
  · rw [if_pos herr]
    refine ⟨rfl, fun h => absurd h herr, fun _ => rfl, fun h => ?_, fun h => absurd h herr⟩
    obtain ⟨sessionKey, hs⟩ := h
    simp at hs

set_option maxRecDepth 1000000 in
/-- C6 at a registry that holds `prod` with the small key and the request
for `prod` with the API key `key!`. -/
theorem OpenAPIHandler_orchestration_witness :
    (OpenAPIHandler ⟨[⟨"prod", sampleKey⟩]⟩ sampleRandom .fresh (some ⟨"prod", "key!"⟩)).w.body =
      [.responseJSON ⟨"FXkzK4xVpN+1t98eZZ9x"⟩] ∧
    (OpenAPIHandler ⟨[⟨"prod", sampleKey⟩]⟩ sampleRandom .fresh (some ⟨"prod", "key!!"⟩)).w.body =
      [.errorJSON ⟨"Error encrypting access token"⟩] :=
  ⟨((OpenAPIHandler_orchestration ⟨[⟨"prod", sampleKey⟩]⟩ sampleRandom ⟨"prod", "key!"⟩
      (by decide)).2.1 (by decide)).trans (by decide),
    ((OpenAPIHandler_orchestration ⟨[⟨"prod", sampleKey⟩]⟩ sampleRandom ⟨"prod", "key!!"⟩
      (by decide)).2.2.1 (by decide)).trans (by decide)⟩

end Encrypter
namespace Encrypter

set_option maxRecDepth 1000000 in
/-- C7 fails on the code: with an entry whose name is empty, the request for
the empty environment finds that entry's key and gets a session key, not the
error `Invalid environment`. -/
theorem OpenAPIHandler_empty_name_found :
    lookupPublicKey [⟨"", sampleKey⟩] "" = sampleKey ∧
    (OpenAPIHandler ⟨[⟨"", sampleKey⟩]⟩ sampleRandom .fresh (some ⟨"", "key!"⟩)).w.body =
      [.responseJSON ⟨"FXkzK4xVpN+1t98eZZ9x"⟩] ∧
    (OpenAPIHandler ⟨[⟨"", sampleKey⟩]⟩ sampleRandom .fresh (some ⟨"", "key!"⟩)).w.body ≠
      [.errorJSON ⟨"Invalid environment"⟩] := by
  decide

/-- C7 as amended: for every registry and every name, empty or not, the key
found is that of the first entry whose name equals it, and the empty string
when there is no such entry; the request gets the JSON error
`Invalid environment` exactly when the key found is empty. -/
theorem lookupPublicKey_first_match (envs : List EnvironmentConfig) (name : String) :
    (∀ (pre post : List EnvironmentConfig) (env : EnvironmentConfig),
      envs = pre ++ env :: post → (∀ e ∈ pre, e.Name ≠ name) → env.Name = name →
      lookupPublicKey envs name = env.PublicKey) ∧
    ((∀ e ∈ envs, e.Name ≠ name) → lookupPublicKey envs name = "") ∧
    ∀ (random : rsa.RandReader) (apiKey : String),
      (OpenAPIHandler ⟨envs⟩ random .fresh (some ⟨name, apiKey⟩)).w.body =
        [.errorJSON ⟨"Invalid environment"⟩] ↔ lookupPublicKey envs name = "" := by
  refine ⟨?_, lookupPublicKey_of_no_match envs name, ?_⟩
  · intro pre post env henvs hpre henv
    rw [henvs]
    exact lookupPublicKey_of_first_match pre post env name hpre henv
  · intro random apiKey
    rw [OpenAPIHandler_fresh]
    by_cases hk : lookupPublicKey envs name = ""
    · simp only [hk, if_true]
    · simp only [hk, if_false, iff_false]
      have hne := EncryptAPIKey_error_ne_invalid random (lookupPublicKey envs name) apiKey
      split_ifs with herr
      · intro h
        simp only [List.cons.injEq, http.Body.errorJSON.injEq, OpenAPIErrorResponse.mk.injEq,
          and_true] at h
        exact hne h
      · intro h
        simp at h

theorem Write_status (w : http.ResponseWriter) (data : http.Body) (hw : w.status = none) :
    (w.Write data).1.status = some 200 := by
  unfold http.ResponseWriter.Write http.ResponseWriter.WriteHeader
  simp only [hw]
  split_ifs <;> rfl

theorem SetHeader_status (w : http.ResponseWriter) (key value : String) :
    (w.SetHeader key value).status = w.status := rfl

theorem Error_status_of_some (w : http.ResponseWriter) (error : String) (code c : Nat)
    (hw : w.status = some c) : (http.Error w error code).status = some c := by
  unfold http.Error http.ResponseWriter.Write http.ResponseWriter.WriteHeader
  simp only [SetHeader_status, hw]
  split_ifs <;> first | rfl | exact hw

theorem Error_status_of_none (w : http.ResponseWriter) (error : String) (code : Nat)
    (hw : w.status = none) : (http.Error w error code).status = some code := by
  unfold http.Error http.ResponseWriter.Write http.ResponseWriter.WriteHeader
  simp only [SetHeader_status, hw]
  split_ifs <;> rfl

/-- The status the handler sends, on a response writer whose header is not
written yet: 200 for every request whose body decodes, whatever it writes
afterwards, and 400 for a request whose body does not decode. -/
theorem OpenAPIHandler_status (appConfig : AppConfig) (random : rsa.RandReader)
    (w : http.ResponseWriter) (hw : w.status = none) :
    (∀ request : OpenAPIRequest,
      (OpenAPIHandler appConfig random w (some request)).w.status = some http.StatusOK) ∧
    (OpenAPIHandler appConfig random w none).w.status = some http.StatusBadRequest := by
  constructor
  · intro request
    unfold OpenAPIHandler
    simp only
    split_ifs <;>
      first
      | exact Write_status _ _ hw
      | exact Error_status_of_some _ _ _ 200 (Write_status _ _ hw)
  · exact Error_status_of_none w _ _ hw

set_option maxRecDepth 1000000 in
/-- C8, a defect of the code.  The claim asks for an error status with every
JSON error, and the code aims at one: the branch of the unknown environment
calls `http.Error` with `StatusBadRequest`, and the path of the undecodable
body answers 400.  Yet the request for the unregistered `staging` gets the JSON
error `Invalid environment` with status 200, and so does the JSON error of a
failed encryption; where the write fails and the call of `http.Error` with
`StatusBadRequest` runs, the status stays 200, since the write has fixed it. -/
theorem OpenAPIHandler_error_status_ok :
    (OpenAPIHandler ⟨[]⟩ emptyRandom .fresh (some ⟨"staging", "x"⟩)).w =
      ⟨[], some 200, [.errorJSON ⟨"Invalid environment"⟩], false⟩ ∧
    (OpenAPIHandler ⟨[⟨"prod", sampleKey⟩]⟩ sampleRandom .fresh (some ⟨"prod", "key!!"⟩)).w =
      ⟨[], some 200, [.errorJSON ⟨"Error encrypting access token"⟩], false⟩ ∧
    (OpenAPIHandler ⟨[]⟩ emptyRandom ⟨[], none, [], true⟩ (some ⟨"staging", "x"⟩)).w.status =
      some 200 ∧
    (OpenAPIHandler ⟨[]⟩ emptyRandom .fresh none).w =
      ⟨[("X-Content-Type-Options", "nosniff"), ("Content-Type", "text/plain; charset=utf-8")],
        some 400, [.text "Invalid request body"], false⟩ := by
  decide

end Encrypter
